import Mathlib

/-!
Shallow embedding of the buffered ingestion writer of the arc-client-python
repository (`src/arc_client/ingestion/buffered.py`; the async variant in
`async_buffered.py` has the same sequential semantics: the only differences
are the lock primitive and suspension points, which a sequential embedding
does not observe).

Python dictionaries are modelled by `SDict`: an insertion-ordered key list
together with a total value function (`defaultdict` semantics: looking up a
missing key yields the default).  A columnar batch (an inner Python dict
`column name -> list of values`) is modelled as an insertion-ordered
association list, since the code reads `next(iter(columns.values()))`.
Monotonic time and wall-clock time are explicit integer parameters of each
operation.  The Write Sink is a function `String → Columns → Except ε Unit`;
an operation returns its post state, the list of sink invocations it
performed, and an optional error (Python exceptions propagate but leave the
already-performed mutations in place, so the post state is always returned).
-/

namespace ArcSpec

/-- Scalar cell values carried in columns (Python passes these opaquely). -/
inductive Value where
  | int : Int → Value
  | str : String → Value
  | bool : Bool → Value
deriving DecidableEq, Repr

/-- A columnar batch: insertion-ordered mapping from column name to the
column's list of values, as built by a Python `dict`. -/
abbrev Columns := List (String × List Value)

/-- The keys of a columnar batch, in insertion order. -/
def colKeys (c : Columns) : List String := c.map Prod.fst

/-- Dictionary lookup on a columnar batch (`columns[k]` / `k in columns`). -/
def colLookup (c : Columns) (k : String) : Option (List Value) :=
  match c with
  | [] => none
  | (k', v) :: rest => if k' = k then some v else colLookup rest k

/-- Python `dict` assignment `c[k] = v`: replaces the value in place when the
key is present, otherwise appends the new key at the end. -/
def insertCol (c : Columns) (k : String) (v : List Value) : Columns :=
  match c with
  | [] => [(k, v)]
  | (k', v') :: rest => if k' = k then (k, v) :: rest else (k', v') :: insertCol rest k v

/-- Python `len(next(iter(columns.values())))`: the length of the first column's
value list (0 for an empty mapping, which the code never reaches). -/
def rowCount (c : Columns) : Nat :=
  match c with
  | [] => 0
  | (_, vs) :: _ => vs.length

/-- Merging, `BufferedWriter._merge_columnar`: empty input gives an empty mapping, a
single batch is returned unchanged, and two or more batches are merged by
uniting the column-name sets and, per column, concatenating the values of
the batches that contain the column, in batch order.  The Python code
iterates a `set` whose order is unspecified; the embedding fixes one
deterministic enumeration of the same set. -/
def mergeColumnar (batches : List Columns) : Columns :=
  match batches with
  | [] => []
  | [b] => b
  | _ :: _ :: _ =>
    let allColumns := ((batches.map colKeys).flatten).dedup
    allColumns.map fun k => (k, (batches.filterMap (fun b => colLookup b k)).flatten)

/-- A record offered to `write`: `record.get("measurement")` may be absent,
`fields`/`tags` default to the empty mapping, `timestamp` may be absent. -/
structure Record where
  measurement : Option String
  timestamp : Option Int
  fields : List (String × Value)
  tags : List (String × Value)

/-- The loops `for key, value in fields.items(): columns[key] = [value]`. -/
def buildCols (init : Columns) (kvs : List (String × Value)) : Columns :=
  kvs.foldl (fun c kv => insertCol c kv.1 [kv.2]) init

/-- The one-row columnar batch derived from a record by `write`:
`{"time": [timestamp]}` then the fields, then the tags, with dict-update
semantics; a missing timestamp is replaced by the wall clock. -/
def recordToColumns (r : Record) (wall : Int) : Columns :=
  buildCols (buildCols [("time", [Value.int (r.timestamp.getD wall)])] r.fields) r.tags

/-- A Python `defaultdict`: insertion-ordered key list plus a total value
function; the intended invariant is that keys outside `keys` map to the
default. -/
structure SDict (α : Type) where
  keys : List String
  val : String → α

/-- Dictionary read (`d[k]` under `defaultdict` semantics). -/
def SDict.get {α : Type} (d : SDict α) (k : String) : α := d.val k

/-- Dictionary write `d[k] = v`: the key list is extended only when the key
is new (Python keeps the original insertion position). -/
def SDict.set {α : Type} (d : SDict α) (k : String) (v : α) : SDict α :=
  ⟨if k ∈ d.keys then d.keys else d.keys ++ [k],
   fun k' => if k' = k then v else d.val k'⟩

/-- An empty dictionary with the given default. -/
def SDict.empty {α : Type} (a : α) : SDict α := ⟨[], fun _ => a⟩

/-- The mutable state of a `BufferedWriter`. -/
structure WState where
  buffers : SDict (List Columns)
  counts : SDict Nat
  lastFlushTime : Int
  closed : Bool

/-- Initial state, `BufferedWriter.__init__`: empty buffers and counts, the construction
time as the last flush time, not closed. -/
def initState (t0 : Int) : WState :=
  ⟨SDict.empty [], SDict.empty 0, t0, false⟩

/-- The writer's construction-time thresholds. -/
structure Config where
  batchSize : Nat
  flushInterval : Int

/-- The Write Sink (`self._client.write_columnar`): may fail with an error
of an arbitrary type `ε`. -/
abbrev Sink (ε : Type) := String → Columns → Except ε Unit

/-- The observable outcome of one operation: the post state, the sink
invocations performed (in order), and the propagated error, if any. -/
structure Outcome (β : Type) where
  state : WState
  calls : List (String × Columns)
  err : Option β

/-- Sequencing with Python exception semantics: if the first step raised,
the second never runs; otherwise outcomes accumulate. -/
def Outcome.andThen {β : Type} (o : Outcome β) (f : WState → Outcome β) : Outcome β :=
  match o.err with
  | some _ => o
  | none =>
    let o2 := f o.state
    ⟨o2.state, o.calls ++ o2.calls, o2.err⟩

/-- Re-tag the error of an outcome. -/
def Outcome.mapErr {β γ : Type} (o : Outcome β) (f : β → γ) : Outcome γ :=
  ⟨o.state, o.calls, o.err.map f⟩

/-- Errors surfaced by the public operations: a `ValueError` from argument
validation, or a sink error propagated unchanged. -/
inductive WError (ε : Type) where
  | invalidArg : String → WError ε
  | sinkErr : ε → WError ε
deriving DecidableEq

/-- Flush of one measurement, `BufferedWriter._flush_measurement`: return unless the measurement has a
nonempty pending list; otherwise merge the pending batches, clear the
pending list and the count, invoke the sink, and on success record the flush
time.  On sink failure the cleared state stands and the error propagates. -/
def flushMeasurement {ε : Type} (sink : Sink ε) (now : Int) (s : WState) (m : String) :
    Outcome ε :=
  if m ∉ s.buffers.keys ∨ s.buffers.get m = [] then ⟨s, [], none⟩
  else
    let merged := mergeColumnar (s.buffers.get m)
    let s1 : WState := { s with buffers := s.buffers.set m [], counts := s.counts.set m 0 }
    match sink m merged with
    | .ok _ => ⟨{ s1 with lastFlushTime := now }, [(m, merged)], none⟩
    | .error e => ⟨s1, [(m, merged)], some e⟩

/-- The loop body of `BufferedWriter._flush_all` over a snapshot of the key
list: skip empty pending lists, abort on the first error. -/
def flushAllAux {ε : Type} (sink : Sink ε) (now : Int) : List String → WState → Outcome ε
  | [], s => ⟨s, [], none⟩
  | m :: rest, s =>
    if s.buffers.get m = [] then flushAllAux sink now rest s
    else (flushMeasurement sink now s m).andThen (flushAllAux sink now rest)

/-- Flush of every measurement, `BufferedWriter._flush_all`: iterate
`list(self._buffers.keys())`. -/
def flushAll {ε : Type} (sink : Sink ε) (now : Int) (s : WState) : Outcome ε :=
  flushAllAux sink now s.buffers.keys s

/-- The two trigger checks run after buffering by `write`/`write_columnar`:
the per-measurement size trigger first, then the global time trigger (which
reads the possibly-updated last flush time). -/
def checkTriggers {ε : Type} (cfg : Config) (sink : Sink ε) (now : Int) (m : String)
    (s : WState) : Outcome ε :=
  let o1 := if cfg.batchSize ≤ s.counts.get m then flushMeasurement sink now s m
            else ⟨s, [], none⟩
  o1.andThen fun s' =>
    if cfg.flushInterval ≤ now - s'.lastFlushTime then flushAll sink now s'
    else ⟨s', [], none⟩

/-- Public write, `BufferedWriter.write`: validate the record, derive a one-row columnar
batch, append it, bump the count by one, then evaluate the triggers. -/
def write {ε : Type} (cfg : Config) (sink : Sink ε) (r : Record) (wall now : Int)
    (s : WState) : Outcome (WError ε) :=
  if r.measurement = none ∨ r.measurement = some "" then
    ⟨s, [], some (WError.invalidArg "Record must have 'measurement' field")⟩
  else if r.fields = [] then
    ⟨s, [], some (WError.invalidArg "Record must have 'fields' field")⟩
  else
    let m := r.measurement.getD ""
    let cols := recordToColumns r wall
    let s1 : WState := { s with
      buffers := s.buffers.set m (s.buffers.get m ++ [cols]),
      counts := s.counts.set m (s.counts.get m + 1) }
    (checkTriggers cfg sink now m s1).mapErr WError.sinkErr

/-- Public columnar write, `BufferedWriter.write_columnar`: an empty column mapping is a silent
no-op; otherwise append the batch unchanged (no validation of the
measurement), bump the count by the first column's length, evaluate the
triggers. -/
def writeColumnar {ε : Type} (cfg : Config) (sink : Sink ε) (m : String) (cols : Columns)
    (now : Int) (s : WState) : Outcome (WError ε) :=
  if cols = [] then ⟨s, [], none⟩
  else
    let s1 : WState := { s with
      buffers := s.buffers.set m (s.buffers.get m ++ [cols]),
      counts := s.counts.set m (s.counts.get m + rowCount cols) }
    (checkTriggers cfg sink now m s1).mapErr WError.sinkErr

/-- Public flush, `BufferedWriter.flush`: flush every measurement. -/
def flushOp {ε : Type} (sink : Sink ε) (now : Int) (s : WState) : Outcome (WError ε) :=
  (flushAll sink now s).mapErr WError.sinkErr

/-- Public close, `BufferedWriter.close`: a no-op once closed; otherwise flush everything
and only then set the closed flag — an error skips the flag assignment. -/
def closeOp {ε : Type} (sink : Sink ε) (now : Int) (s : WState) : Outcome (WError ε) :=
  if s.closed then ⟨s, [], none⟩
  else
    let o := flushAll sink now s
    match o.err with
    | some e => ⟨o.state, o.calls, some (WError.sinkErr e)⟩
    | none => ⟨{ o.state with closed := true }, o.calls, none⟩

/-- Property `pending_count`: `sum(self._record_counts.values())`. -/
def pendingCount (s : WState) : Nat := (s.counts.keys.map s.counts.val).sum

/-- A sequence of `write` calls, each with its own wall-clock and monotonic
time; a raised error aborts the sequence as a Python caller loop would. -/
def writeSeq {ε : Type} (cfg : Config) (sink : Sink ε) :
    List (Record × Int × Int) → WState → Outcome (WError ε)
  | [], s => ⟨s, [], none⟩
  | (r, wall, now) :: rest, s => (write cfg sink r wall now s).andThen (writeSeq cfg sink rest)

/-- Well-formedness of the dictionary encodings: key lists are duplicate
free and keys outside them carry the default value.  Every state the Python
code can build satisfies this. -/
def WFState (s : WState) : Prop :=
  s.buffers.keys.Nodup ∧ s.counts.keys.Nodup ∧
    (∀ m, m ∉ s.buffers.keys → s.buffers.get m = []) ∧
    (∀ m, m ∉ s.counts.keys → s.counts.get m = 0)

/-- The bookkeeping invariant: each measurement's count is the sum of the
row counts of its pending batches. -/
def countsOk (s : WState) : Prop :=
  ∀ m, s.counts.get m = ((s.buffers.get m).map rowCount).sum

/-- The conjunction of dictionary well-formedness and the count invariant;
it holds in every reachable state. -/
def StateInv (s : WState) : Prop := WFState s ∧ countsOk s

/-- States reachable from a fresh writer by any sequence of operations, with
arbitrary sinks and times; `write_columnar` steps are restricted to batches
whose column sequences all share the first column's length (the caller
obligation stated in the spec).  Post states of failed operations are
reachable, as the Python object survives a propagated exception. -/
inductive Reachable (cfg : Config) : WState → Prop where
  | init (t0 : Int) : Reachable cfg (initState t0)
  | stepWrite {ε : Type} (sink : Sink ε) (r : Record) (wall now : Int) {s : WState} :
      Reachable cfg s → Reachable cfg (write cfg sink r wall now s).state
  | stepWriteColumnar {ε : Type} (sink : Sink ε) (m : String) (cols : Columns)
      (now : Int) {s : WState} : Reachable cfg s →
      (∀ p ∈ cols, p.2.length = rowCount cols) →
      Reachable cfg (writeColumnar cfg sink m cols now s).state
  | stepFlush {ε : Type} (sink : Sink ε) (now : Int) {s : WState} :
      Reachable cfg s → Reachable cfg (flushOp sink now s).state
  | stepClose {ε : Type} (sink : Sink ε) (now : Int) {s : WState} :
      Reachable cfg s → Reachable cfg (closeOp sink now s).state

/-- A sink that always succeeds, for exercising the development on concrete
inputs. -/
def okSink : Sink Unit := fun _ _ => Except.ok ()

/-- A sink that always fails, for exercising the failure paths on concrete
inputs. -/
def failSink : Sink Unit := fun _ _ => Except.error ()

/-- A concrete writer state with one pending single-row batch under the
measurement name cpu. -/
def sampleOne : WState :=
  ⟨(SDict.empty []).set "cpu" [[("x", [Value.int 1])]], (SDict.empty 0).set "cpu" 1, 0, false⟩

/-- A concrete writer state with two pending batches under cpu and one under
mem. -/
def sampleTwo : WState :=
  ⟨((SDict.empty []).set "cpu" [[("x", [Value.int 1])], [("y", [Value.int 2])]]).set "mem" [[("z", [Value.int 3])]],
   ((SDict.empty 0).set "cpu" 2).set "mem" 1, 0, false⟩

/-- A concrete valid record addressed to cpu. -/
def sampleRecord : Record := ⟨some "cpu", some 7, [("u", Value.int 10)], []⟩

/-! ### Dictionary lemmas -/

theorem SDict.get_set_self {α : Type} (d : SDict α) (k : String) (v : α) :
    (d.set k v).get k = v := by
  simp [SDict.get, SDict.set]

theorem SDict.get_set_ne {α : Type} (d : SDict α) {k k' : String} (v : α) (h : k' ≠ k) :
    (d.set k v).get k' = d.get k' := by
  simp [SDict.get, SDict.set, h]

theorem SDict.mem_keys_set {α : Type} (d : SDict α) (k k' : String) (v : α) :
    k' ∈ (d.set k v).keys ↔ k' ∈ d.keys ∨ k' = k := by
  by_cases hk : k ∈ d.keys
  · simp only [SDict.set, if_pos hk]
    constructor
    · exact Or.inl
    · rintro (h | rfl) <;> assumption
  · simp [SDict.set, if_neg hk]

theorem SDict.keys_set_of_mem {α : Type} (d : SDict α) {k : String} (v : α)
    (hk : k ∈ d.keys) : (d.set k v).keys = d.keys := by
  simp [SDict.set, if_pos hk]

theorem SDict.nodup_keys_set {α : Type} (d : SDict α) (k : String) (v : α)
    (h : d.keys.Nodup) : (d.set k v).keys.Nodup := by
  by_cases hk : k ∈ d.keys
  · simpa [SDict.set, if_pos hk] using h
  · simp [SDict.set, if_neg hk, List.nodup_append, h, hk]

theorem SDict.set_set {α : Type} (d : SDict α) (k : String) (v w : α) :
    (d.set k v).set k w = d.set k w := by
  unfold SDict.set
  by_cases hk : k ∈ d.keys <;>
    · congr 1
      · simp [hk]
      · funext k'
        by_cases h : k' = k <;> simp [h]

/-! ### Outcome lemmas -/

theorem Outcome.andThen_some {β : Type} (s : WState) (c : List (String × Columns)) (e : β)
    (f : WState → Outcome β) :
    Outcome.andThen ⟨s, c, some e⟩ f = ⟨s, c, some e⟩ := rfl

theorem Outcome.andThen_none {β : Type} (s : WState) (c : List (String × Columns))
    (f : WState → Outcome β) :
    Outcome.andThen ⟨s, c, none⟩ f = ⟨(f s).state, c ++ (f s).calls, (f s).err⟩ := rfl

theorem Outcome.andThen_assoc {β : Type} (o : Outcome β) (f g : WState → Outcome β) :
    (o.andThen f).andThen g = o.andThen fun s => (f s).andThen g := by
  obtain ⟨s, c, err⟩ := o
  cases err with
  | some e => rfl
  | none =>
    rcases hfs : f s with ⟨s1, c1, e1⟩
    cases e1 <;> simp [Outcome.andThen, hfs, List.append_assoc]

theorem Outcome.mapErr_state {β γ : Type} (o : Outcome β) (f : β → γ) :
    (o.mapErr f).state = o.state := rfl

theorem Outcome.mapErr_calls {β γ : Type} (o : Outcome β) (f : β → γ) :
    (o.mapErr f).calls = o.calls := rfl

theorem Outcome.andThen_state {β : Type} (o : Outcome β) (f : WState → Outcome β)
    (P : WState → Prop) (h1 : P o.state) (h2 : P o.state → P (f o.state).state) :
    P (o.andThen f).state := by
  unfold Outcome.andThen
  cases ho : o.err <;> simp only [ho] <;> [exact h2 h1; exact h1]

/-! ### Columnar batch lemmas -/

theorem colLookup_isSome_iff (c : Columns) (k : String) :
    (colLookup c k).isSome ↔ k ∈ colKeys c := by
  induction c with
  | nil => simp [colLookup, colKeys]
  | cons p rest ih =>
    obtain ⟨k', v⟩ := p
    by_cases h : k' = k
    · subst h
      simp [colLookup, colKeys]
    · simp [colLookup, colKeys, h, ih, Ne.symm h]

theorem mem_colKeys_of_lookup {c : Columns} {k : String} {vs : List Value}
    (h : colLookup c k = some vs) : k ∈ colKeys c := by
  rw [← colLookup_isSome_iff, h]
  rfl

theorem insertCol_ne_nil (c : Columns) (k : String) (v : List Value) :
    insertCol c k v ≠ [] := by
  cases c with
  | nil => simp [insertCol]
  | cons p rest =>
    obtain ⟨k', v'⟩ := p
    by_cases h : k' = k <;> simp [insertCol, h]

theorem insertCol_values (c : Columns) (k : String) (v : List Value)
    (P : List Value → Prop) (hc : ∀ p ∈ c, P p.2) (hv : P v) :
    ∀ p ∈ insertCol c k v, P p.2 := by
  induction c with
  | nil =>
    intro p hp
    rw [show insertCol [] k v = [(k, v)] from rfl, List.mem_singleton] at hp
    subst hp
    exact hv
  | cons q rest ih =>
    obtain ⟨k', v'⟩ := q
    intro p hp
    rw [show insertCol ((k', v') :: rest) k v
        = if k' = k then (k, v) :: rest else (k', v') :: insertCol rest k v from rfl] at hp
    by_cases h : k' = k
    · rw [if_pos h, List.mem_cons] at hp
      rcases hp with rfl | hp
      · exact hv
      · exact hc p (List.mem_cons_of_mem _ hp)
    · rw [if_neg h, List.mem_cons] at hp
      rcases hp with rfl | hp
      · exact hc (k', v') (List.mem_cons_self _ _)
      · exact ih (fun q hq => hc q (List.mem_cons_of_mem _ hq)) p hp

theorem buildCols_cons (init : Columns) (kv : String × Value) (rest : List (String × Value)) :
    buildCols init (kv :: rest) = buildCols (insertCol init kv.1 [kv.2]) rest := rfl

theorem buildCols_ne_nil (init : Columns) (kvs : List (String × Value)) (h : init ≠ []) :
    buildCols init kvs ≠ [] := by
  induction kvs generalizing init with
  | nil => exact h
  | cons kv rest ih => exact buildCols_cons init kv rest ▸ ih _ (insertCol_ne_nil _ _ _)

theorem buildCols_values (init : Columns) (kvs : List (String × Value))
    (hc : ∀ p ∈ init, p.2.length = 1) :
    ∀ p ∈ buildCols init kvs, p.2.length = 1 := by
  induction kvs generalizing init with
  | nil => exact hc
  | cons kv rest ih =>
    rw [buildCols_cons]
    exact ih _ (insertCol_values init kv.1 [kv.2] (fun l => l.length = 1) hc rfl)

theorem rowCount_eq_one (c : Columns) (hne : c ≠ []) (hall : ∀ p ∈ c, p.2.length = 1) :
    rowCount c = 1 := by
  cases c with
  | nil => exact absurd rfl hne
  | cons p rest => exact hall p (List.mem_cons_self _ _)

theorem rowCount_recordToColumns (r : Record) (wall : Int) :
    rowCount (recordToColumns r wall) = 1 := by
  unfold recordToColumns
  refine rowCount_eq_one _ (buildCols_ne_nil _ _ (buildCols_ne_nil _ _ (by simp))) ?_
  refine buildCols_values _ _ (buildCols_values _ _ ?_)
  rintro p hp
  rw [List.mem_singleton] at hp
  subst hp
  rfl

/-! ### Merge lemmas -/

theorem colLookup_keyMap (L : List String) (f : String → List Value) (k : String) :
    colLookup (L.map fun k' => (k', f k')) k = if k ∈ L then some (f k) else none := by
  induction L with
  | nil => simp [colLookup]
  | cons a L ih =>
    by_cases h : a = k
    · subst h
      simp [colLookup]
    · simp [colLookup, h, ih, Ne.symm h]

theorem mem_flatten_keys (bs : List Columns) (k : String) :
    k ∈ (bs.map colKeys).flatten ↔ ∃ b ∈ bs, k ∈ colKeys b := by
  simp [List.mem_flatten]

theorem mergeColumnar_single (b : Columns) : mergeColumnar [b] = b := rfl

theorem mergeColumnar_keys (b1 b2 : Columns) (rest : List Columns) :
    colKeys (mergeColumnar (b1 :: b2 :: rest)) =
      (((b1 :: b2 :: rest).map colKeys).flatten).dedup := by
  simp only [mergeColumnar, colKeys, List.map_map]
  exact List.map_id _

theorem mergeColumnar_lookup (b1 b2 : Columns) (rest : List Columns) (k : String) :
    colLookup (mergeColumnar (b1 :: b2 :: rest)) k =
      if k ∈ ((b1 :: b2 :: rest).map colKeys).flatten then
        some (((b1 :: b2 :: rest).filterMap fun b => colLookup b k).flatten)
      else none := by
  show colLookup ((((b1 :: b2 :: rest).map colKeys).flatten.dedup).map
    fun k' => (k', ((b1 :: b2 :: rest).filterMap fun b => colLookup b k').flatten)) k = _
  rw [colLookup_keyMap]
  simp [List.mem_dedup]

theorem mergeColumnar_lookup_eq_concat (bs : List Columns) (k : String) (vs : List Value)
    (h : colLookup (mergeColumnar bs) k = some vs) :
    vs = ((bs.filterMap fun b => colLookup b k).flatten) := by
  match bs with
  | [] => simp [mergeColumnar, colLookup] at h
  | [b] =>
    rw [mergeColumnar_single] at h
    simp [List.filterMap_cons, h]
  | b1 :: b2 :: rest =>
    rw [mergeColumnar_lookup] at h
    split at h
    · exact (Option.some_injective _ h).symm
    · exact absurd h (by simp)

/-! ### Flush lemmas -/

theorem flushMeasurement_skip {ε : Type} (sink : Sink ε) (now : Int) (s : WState) (m : String)
    (h : m ∉ s.buffers.keys ∨ s.buffers.get m = []) :
    flushMeasurement sink now s m = ⟨s, [], none⟩ := by
  unfold flushMeasurement
  rw [if_pos h]

theorem flushMeasurement_ok_eq {ε : Type} (sink : Sink ε) (now : Int) (s : WState) (m : String)
    (hm : m ∈ s.buffers.keys) (hne : s.buffers.get m ≠ [])
    (hok : sink m (mergeColumnar (s.buffers.get m)) = Except.ok ()) :
    flushMeasurement sink now s m =
      ⟨{ s with buffers := s.buffers.set m [], counts := s.counts.set m 0,
                lastFlushTime := now },
        [(m, mergeColumnar (s.buffers.get m))], none⟩ := by
  unfold flushMeasurement
  rw [if_neg (by push_neg; exact ⟨hm, hne⟩)]
  simp only [hok]

theorem flushMeasurement_err_eq {ε : Type} (sink : Sink ε) (now : Int) (s : WState) (m : String)
    (e : ε) (hm : m ∈ s.buffers.keys) (hne : s.buffers.get m ≠ [])
    (herr : sink m (mergeColumnar (s.buffers.get m)) = Except.error e) :
    flushMeasurement sink now s m =
      ⟨{ s with buffers := s.buffers.set m [], counts := s.counts.set m 0 },
        [(m, mergeColumnar (s.buffers.get m))], some e⟩ := by
  unfold flushMeasurement
  rw [if_neg (by push_neg; exact ⟨hm, hne⟩)]
  simp only [herr]

theorem flushMeasurement_buffers_keys {ε : Type} (sink : Sink ε) (now : Int) (s : WState)
    (m : String) : (flushMeasurement sink now s m).state.buffers.keys = s.buffers.keys := by
  by_cases hc : m ∉ s.buffers.keys ∨ s.buffers.get m = []
  · rw [flushMeasurement_skip sink now s m hc]
  · push_neg at hc
    cases hsink : sink m (mergeColumnar (s.buffers.get m)) with
    | ok u =>
      cases u
      rw [flushMeasurement_ok_eq sink now s m hc.1 hc.2 hsink]
      exact SDict.keys_set_of_mem _ _ hc.1
    | error e =>
      rw [flushMeasurement_err_eq sink now s m e hc.1 hc.2 hsink]
      exact SDict.keys_set_of_mem _ _ hc.1

theorem flushMeasurement_closed {ε : Type} (sink : Sink ε) (now : Int) (s : WState)
    (m : String) : (flushMeasurement sink now s m).state.closed = s.closed := by
  by_cases hc : m ∉ s.buffers.keys ∨ s.buffers.get m = []
  · rw [flushMeasurement_skip sink now s m hc]
  · push_neg at hc
    cases hsink : sink m (mergeColumnar (s.buffers.get m)) with
    | ok u => cases u; rw [flushMeasurement_ok_eq sink now s m hc.1 hc.2 hsink]
    | error e => rw [flushMeasurement_err_eq sink now s m e hc.1 hc.2 hsink]

theorem flushMeasurement_untouched {ε : Type} (sink : Sink ε) (now : Int) (s : WState)
    (m m' : String) (hne : m' ≠ m) :
    (flushMeasurement sink now s m).state.buffers.get m' = s.buffers.get m' ∧
    (flushMeasurement sink now s m).state.counts.get m' = s.counts.get m' := by
  by_cases hc : m ∉ s.buffers.keys ∨ s.buffers.get m = []
  · rw [flushMeasurement_skip sink now s m hc]
    exact ⟨rfl, rfl⟩
  · push_neg at hc
    cases hsink : sink m (mergeColumnar (s.buffers.get m)) with
    | ok u =>
      cases u
      rw [flushMeasurement_ok_eq sink now s m hc.1 hc.2 hsink]
      exact ⟨SDict.get_set_ne _ _ hne, SDict.get_set_ne _ _ hne⟩
    | error e =>
      rw [flushMeasurement_err_eq sink now s m e hc.1 hc.2 hsink]
      exact ⟨SDict.get_set_ne _ _ hne, SDict.get_set_ne _ _ hne⟩

theorem flushMeasurement_inv {ε : Type} (sink : Sink ε) (now : Int) (s : WState) (m : String)
    (h : StateInv s) : StateInv (flushMeasurement sink now s m).state := by
  by_cases hc : m ∉ s.buffers.keys ∨ s.buffers.get m = []
  · rw [flushMeasurement_skip sink now s m hc]
    exact h
  · push_neg at hc
    obtain ⟨hm, hne⟩ := hc
    obtain ⟨⟨hbn, hcn, hbo, hco⟩, hcounts⟩ := h
    have hstate : ∀ (st : WState), st.buffers = s.buffers.set m [] →
        st.counts = s.counts.set m 0 → StateInv st := by
      intro st hb hcnt
      refine ⟨⟨?_, ?_, ?_, ?_⟩, ?_⟩
      · rw [hb, SDict.keys_set_of_mem _ _ hm]
        exact hbn
      · rw [hcnt]
        exact SDict.nodup_keys_set _ _ _ hcn
      · intro m' hm'
        rw [hb, SDict.keys_set_of_mem _ _ hm] at hm'
        have hmm : m' ≠ m := fun e => hm' (e ▸ hm)
        rw [hb, SDict.get_set_ne _ _ hmm]
        exact hbo m' hm'
      · intro m' hm'
        rw [hcnt, SDict.mem_keys_set] at hm'
        push_neg at hm'
        rw [hcnt, SDict.get_set_ne _ _ hm'.2]
        exact hco m' hm'.1
      · intro m'
        rw [hb, hcnt]
        by_cases hmm : m' = m
        · subst hmm
          rw [SDict.get_set_self, SDict.get_set_self]
          rfl
        · rw [SDict.get_set_ne _ _ hmm, SDict.get_set_ne _ _ hmm]
          exact hcounts m'
    cases hsink : sink m (mergeColumnar (s.buffers.get m)) with
    | ok u =>
      cases u
      rw [flushMeasurement_ok_eq sink now s m hm hne hsink]
      exact hstate _ rfl rfl
    | error e =>
      rw [flushMeasurement_err_eq sink now s m e hm hne hsink]
      exact hstate _ rfl rfl

theorem flushAllAux_cons {ε : Type} (sink : Sink ε) (now : Int) (m : String)
    (rest : List String) (s : WState) :
    flushAllAux sink now (m :: rest) s =
      if s.buffers.get m = [] then flushAllAux sink now rest s
      else (flushMeasurement sink now s m).andThen (flushAllAux sink now rest) := rfl

theorem flushAllAux_inv {ε : Type} (sink : Sink ε) (now : Int) (L : List String) (s : WState)
    (h : StateInv s) : StateInv (flushAllAux sink now L s).state := by
  induction L generalizing s with
  | nil => exact h
  | cons m rest ih =>
    rw [flushAllAux_cons]
    split
    · exact ih s h
    · exact Outcome.andThen_state _ _ StateInv (flushMeasurement_inv sink now s m h)
        fun h' => ih _ h'

theorem flushAllAux_buffers_keys {ε : Type} (sink : Sink ε) (now : Int) (L : List String)
    (s : WState) : (flushAllAux sink now L s).state.buffers.keys = s.buffers.keys := by
  induction L generalizing s with
  | nil => rfl
  | cons m rest ih =>
    rw [flushAllAux_cons]
    split
    · exact ih s
    · exact Outcome.andThen_state _ _ (fun st => st.buffers.keys = s.buffers.keys)
        (flushMeasurement_buffers_keys sink now s m) fun h' => (ih _).trans h'

theorem flushAllAux_closed {ε : Type} (sink : Sink ε) (now : Int) (L : List String)
    (s : WState) : (flushAllAux sink now L s).state.closed = s.closed := by
  induction L generalizing s with
  | nil => rfl
  | cons m rest ih =>
    rw [flushAllAux_cons]
    split
    · exact ih s
    · exact Outcome.andThen_state _ _ (fun st => st.closed = s.closed)
        (flushMeasurement_closed sink now s m) fun h' => (ih _).trans h'

theorem flushAllAux_untouched {ε : Type} (sink : Sink ε) (now : Int) (L : List String)
    (s : WState) (m : String) (hm : m ∉ L) :
    (flushAllAux sink now L s).state.buffers.get m = s.buffers.get m ∧
    (flushAllAux sink now L s).state.counts.get m = s.counts.get m := by
  induction L generalizing s with
  | nil => exact ⟨rfl, rfl⟩
  | cons m0 rest ih =>
    have hm0 : m ≠ m0 := fun e => hm (e ▸ List.mem_cons_self m0 rest)
    have hrest : m ∉ rest := fun e => hm (List.mem_cons_of_mem m0 e)
    rw [flushAllAux_cons]
    split
    · exact ih s hrest
    · exact Outcome.andThen_state _ _
        (fun st => st.buffers.get m = s.buffers.get m ∧ st.counts.get m = s.counts.get m)
        (flushMeasurement_untouched sink now s m0 m hm0)
        fun h' => ⟨(ih _ hrest).1.trans h'.1, (ih _ hrest).2.trans h'.2⟩

theorem flushAllAux_preserves_empty {ε : Type} (sink : Sink ε) (now : Int) (L : List String)
    (s : WState) (m : String) (hm : s.buffers.get m = []) :
    (flushAllAux sink now L s).state.buffers.get m = [] := by
  induction L generalizing s with
  | nil => exact hm
  | cons m0 rest ih =>
    rw [flushAllAux_cons]
    split
    · exact ih s hm
    · by_cases hmm : m = m0
      · subst hmm
        simp_all
      · refine Outcome.andThen_state _ _ (fun st => st.buffers.get m = [])
          (((flushMeasurement_untouched sink now s m0 m hmm).1).trans hm) fun h' => ih _ h'

theorem Outcome.andThen_of_err_none {β : Type} (o : Outcome β) (f : WState → Outcome β)
    (h : o.err = none) :
    o.andThen f = ⟨(f o.state).state, o.calls ++ (f o.state).calls, (f o.state).err⟩ := by
  obtain ⟨s, c, err⟩ := o
  cases err with
  | none => rfl
  | some e => exact absurd h (by simp)

theorem flushMeasurement_ok_err {ε : Type} (sink : Sink ε) (now : Int) (s : WState)
    (m : String) (hok : ∀ m' c, sink m' c = Except.ok ()) :
    (flushMeasurement sink now s m).err = none := by
  by_cases hc : m ∉ s.buffers.keys ∨ s.buffers.get m = []
  · rw [flushMeasurement_skip sink now s m hc]
  · push_neg at hc
    rw [flushMeasurement_ok_eq sink now s m hc.1 hc.2 (hok m _)]

theorem flushAllAux_ok_err {ε : Type} (sink : Sink ε) (now : Int) (L : List String)
    (s : WState) (hok : ∀ m c, sink m c = Except.ok ()) :
    (flushAllAux sink now L s).err = none := by
  induction L generalizing s with
  | nil => rfl
  | cons m rest ih =>
    rw [flushAllAux_cons]
    split
    · exact ih s
    · rw [Outcome.andThen_of_err_none _ _ (flushMeasurement_ok_err sink now s m hok)]
      exact ih _

theorem flushAllAux_ok_cleared {ε : Type} (sink : Sink ε) (now : Int) (L : List String)
    (s : WState) (hok : ∀ m c, sink m c = Except.ok ())
    (hsub : ∀ m ∈ L, m ∈ s.buffers.keys) :
    ∀ m ∈ L, (flushAllAux sink now L s).state.buffers.get m = [] := by
  induction L generalizing s with
  | nil => intro m hm; cases hm
  | cons m0 rest ih =>
    intro m hm
    rw [flushAllAux_cons]
    by_cases h0 : s.buffers.get m0 = []
    · rw [if_pos h0]
      rcases List.mem_cons.mp hm with rfl | hmr
      · exact flushAllAux_preserves_empty sink now rest s m h0
      · exact ih s (fun m' hm' => hsub m' (List.mem_cons_of_mem _ hm')) m hmr
    · rw [if_neg h0]
      have hm0k : m0 ∈ s.buffers.keys := hsub m0 (List.mem_cons_self _ _)
      rw [flushMeasurement_ok_eq sink now s m0 hm0k h0 (hok m0 _), Outcome.andThen_none]
      dsimp only
      rcases List.mem_cons.mp hm with rfl | hmr
      · exact flushAllAux_preserves_empty sink now rest _ m (SDict.get_set_self _ _ _)
      · refine ih _ ?_ m hmr
        intro m' hm'
        show m' ∈ (s.buffers.set m0 []).keys
        rw [SDict.keys_set_of_mem _ _ hm0k]
        exact hsub m' (List.mem_cons_of_mem _ hm')

theorem flushAllAux_ok_calls {ε : Type} (sink : Sink ε) (now : Int) (L : List String)
    (s : WState) (hok : ∀ m c, sink m c = Except.ok ())
    (hsub : ∀ m ∈ L, m ∈ s.buffers.keys) :
    ∀ m ∈ L, s.buffers.get m ≠ [] → m ∈ (flushAllAux sink now L s).calls.map Prod.fst := by
  induction L generalizing s with
  | nil => intro m hm; cases hm
  | cons m0 rest ih =>
    intro m hm hne
    rw [flushAllAux_cons]
    by_cases h0 : s.buffers.get m0 = []
    · rw [if_pos h0]
      rcases List.mem_cons.mp hm with rfl | hmr
      · exact absurd h0 hne
      · exact ih s (fun m' hm' => hsub m' (List.mem_cons_of_mem _ hm')) m hmr hne
    · rw [if_neg h0]
      have hm0k : m0 ∈ s.buffers.keys := hsub m0 (List.mem_cons_self _ _)
      rw [flushMeasurement_ok_eq sink now s m0 hm0k h0 (hok m0 _), Outcome.andThen_none]
      dsimp only
      rw [List.map_append, List.mem_append]
      rcases List.mem_cons.mp hm with rfl | hmr
      · exact Or.inl (by simp)
      · by_cases hmm : m = m0
        · exact Or.inl (by simp [hmm])
        · refine Or.inr (ih _ ?_ m hmr ?_)
          · intro m' hm'
            show m' ∈ (s.buffers.set m0 []).keys
            rw [SDict.keys_set_of_mem _ _ hm0k]
            exact hsub m' (List.mem_cons_of_mem _ hm')
          · show (s.buffers.set m0 []).get m ≠ []
            rw [SDict.get_set_ne _ _ hmm]
            exact hne

theorem flushAllAux_ok_lastFlush_or {ε : Type} (sink : Sink ε) (now : Int) (L : List String)
    (s : WState) (hok : ∀ m c, sink m c = Except.ok ())
    (hsub : ∀ m ∈ L, m ∈ s.buffers.keys) :
    (flushAllAux sink now L s).state.lastFlushTime = now ∨
    (flushAllAux sink now L s).state.lastFlushTime = s.lastFlushTime := by
  induction L generalizing s with
  | nil => exact Or.inr rfl
  | cons m0 rest ih =>
    rw [flushAllAux_cons]
    by_cases h0 : s.buffers.get m0 = []
    · rw [if_pos h0]
      exact ih s fun m' hm' => hsub m' (List.mem_cons_of_mem _ hm')
    · rw [if_neg h0]
      have hm0k : m0 ∈ s.buffers.keys := hsub m0 (List.mem_cons_self _ _)
      rw [flushMeasurement_ok_eq sink now s m0 hm0k h0 (hok m0 _), Outcome.andThen_none]
      dsimp only
      have hsub2 : ∀ m' ∈ rest, m' ∈ ({ s with buffers := s.buffers.set m0 [], counts := s.counts.set m0 0, lastFlushTime := now } : WState).buffers.keys := by
        intro m' hm'
        show m' ∈ (s.buffers.set m0 []).keys
        rw [SDict.keys_set_of_mem _ _ hm0k]
        exact hsub m' (List.mem_cons_of_mem _ hm')
      rcases ih { s with buffers := s.buffers.set m0 [], counts := s.counts.set m0 0, lastFlushTime := now } hsub2 with h | h
      · exact Or.inl h
      · exact Or.inl h

theorem flushAllAux_ok_lastFlush {ε : Type} (sink : Sink ε) (now : Int) (L : List String)
    (s : WState) (hok : ∀ m c, sink m c = Except.ok ())
    (hsub : ∀ m ∈ L, m ∈ s.buffers.keys)
    (hex : ∃ m ∈ L, s.buffers.get m ≠ []) :
    (flushAllAux sink now L s).state.lastFlushTime = now := by
  induction L generalizing s with
  | nil =>
    obtain ⟨m, hm, _⟩ := hex
    cases hm
  | cons m0 rest ih =>
    rw [flushAllAux_cons]
    by_cases h0 : s.buffers.get m0 = []
    · rw [if_pos h0]
      obtain ⟨m, hm, hne⟩ := hex
      rcases List.mem_cons.mp hm with rfl | hmr
      · exact absurd h0 hne
      · exact ih s (fun m' hm' => hsub m' (List.mem_cons_of_mem _ hm')) ⟨m, hmr, hne⟩
    · rw [if_neg h0]
      have hm0k : m0 ∈ s.buffers.keys := hsub m0 (List.mem_cons_self _ _)
      rw [flushMeasurement_ok_eq sink now s m0 hm0k h0 (hok m0 _), Outcome.andThen_none]
      dsimp only
      have hsub2 : ∀ m' ∈ rest, m' ∈ ({ s with buffers := s.buffers.set m0 [], counts := s.counts.set m0 0, lastFlushTime := now } : WState).buffers.keys := by
        intro m' hm'
        show m' ∈ (s.buffers.set m0 []).keys
        rw [SDict.keys_set_of_mem _ _ hm0k]
        exact hsub m' (List.mem_cons_of_mem _ hm')
      rcases flushAllAux_ok_lastFlush_or sink now rest { s with buffers := s.buffers.set m0 [], counts := s.counts.set m0 0, lastFlushTime := now } hok hsub2 with h | h
      · exact h
      · exact h

theorem flushAllAux_fail {ε : Type} (sink : Sink ε) (now : Int) (e : ε) (L : List String)
    (s : WState) (hbad : ∀ m c, sink m c = Except.error e)
    (hsub : ∀ m ∈ L, m ∈ s.buffers.keys)
    (hex : ∃ m ∈ L, s.buffers.get m ≠ []) :
    (flushAllAux sink now L s).err = some e ∧
    ∃ m ∈ L, s.buffers.get m ≠ [] ∧
      (flushAllAux sink now L s).state.buffers.get m = [] ∧
      (flushAllAux sink now L s).state.counts.get m = 0 := by
  induction L generalizing s with
  | nil =>
    obtain ⟨m, hm, _⟩ := hex
    cases hm
  | cons m0 rest ih =>
    by_cases h0 : s.buffers.get m0 = []
    · rw [flushAllAux_cons, if_pos h0]
      obtain ⟨m, hm, hne⟩ := hex
      rcases List.mem_cons.mp hm with rfl | hmr
      · exact absurd h0 hne
      · obtain ⟨h1, m', hm', hne', h2, h3⟩ :=
          ih s (fun m'' hm'' => hsub m'' (List.mem_cons_of_mem _ hm'')) ⟨m, hmr, hne⟩
        exact ⟨h1, m', List.mem_cons_of_mem _ hm', hne', h2, h3⟩
    · rw [flushAllAux_cons, if_neg h0,
        flushMeasurement_err_eq sink now s m0 e (hsub m0 (List.mem_cons_self _ _)) h0
          (hbad m0 _),
        Outcome.andThen_some]
      dsimp only
      exact ⟨rfl, m0, List.mem_cons_self _ _, h0, SDict.get_set_self _ _ _,
        SDict.get_set_self _ _ _⟩

/-! ### Public operation lemmas and the reachability invariant -/

theorem Outcome.andThen_pure {β : Type} (s : WState) (f : WState → Outcome β) :
    Outcome.andThen ⟨s, [], none⟩ f = f s := by
  show (⟨(f s).state, [] ++ (f s).calls, (f s).err⟩ : Outcome β) = f s
  rw [List.nil_append]

theorem checkTriggers_noSize {ε : Type} (cfg : Config) (sink : Sink ε) (now : Int)
    (m : String) (s : WState) (h : s.counts.get m < cfg.batchSize) :
    checkTriggers cfg sink now m s =
      if cfg.flushInterval ≤ now - s.lastFlushTime then flushAll sink now s
      else ⟨s, [], none⟩ := by
  unfold checkTriggers
  rw [if_neg (not_le.mpr h), Outcome.andThen_pure]

theorem checkTriggers_size {ε : Type} (cfg : Config) (sink : Sink ε) (now : Int)
    (m : String) (s : WState) (h : cfg.batchSize ≤ s.counts.get m) :
    checkTriggers cfg sink now m s =
      (flushMeasurement sink now s m).andThen fun s' =>
        if cfg.flushInterval ≤ now - s'.lastFlushTime then flushAll sink now s'
        else ⟨s', [], none⟩ := by
  unfold checkTriggers
  rw [if_pos h]

theorem write_valid_eq {ε : Type} (cfg : Config) (sink : Sink ε) (r : Record)
    (wall now : Int) (s : WState) (m : String) (hmeas : r.measurement = some m)
    (hm : m ≠ "") (hf : r.fields ≠ []) :
    write cfg sink r wall now s =
      (checkTriggers cfg sink now m { s with buffers := s.buffers.set m (s.buffers.get m ++ [recordToColumns r wall]), counts := s.counts.set m (s.counts.get m + 1) }).mapErr WError.sinkErr := by
  unfold write
  have h1 : ¬(r.measurement = none ∨ r.measurement = some "") := by
    rw [hmeas]
    rintro (h | h)
    · cases h
    · exact hm (Option.some.inj h)
  rw [if_neg h1, if_neg hf, hmeas]
  rfl

theorem writeColumnar_ne_eq {ε : Type} (cfg : Config) (sink : Sink ε) (m : String)
    (cols : Columns) (now : Int) (s : WState) (h : cols ≠ []) :
    writeColumnar cfg sink m cols now s =
      (checkTriggers cfg sink now m { s with buffers := s.buffers.set m (s.buffers.get m ++ [cols]), counts := s.counts.set m (s.counts.get m + rowCount cols) }).mapErr WError.sinkErr := by
  unfold writeColumnar
  rw [if_neg h]

theorem writeColumnar_empty_eq {ε : Type} (cfg : Config) (sink : Sink ε) (m : String)
    (now : Int) (s : WState) :
    writeColumnar cfg sink m [] now s = ⟨s, [], none⟩ := rfl

theorem initState_inv (t0 : Int) : StateInv (initState t0) :=
  ⟨⟨List.nodup_nil, List.nodup_nil, fun _ _ => rfl, fun _ _ => rfl⟩, fun _ => rfl⟩

theorem append_state_inv (s : WState) (m : String) (b : Columns) (n : Nat)
    (hn : rowCount b = n) (h : StateInv s) :
    StateInv { s with buffers := s.buffers.set m (s.buffers.get m ++ [b]), counts := s.counts.set m (s.counts.get m + n) } := by
  obtain ⟨⟨hbn, hcn, hbo, hco⟩, hcounts⟩ := h
  refine ⟨⟨SDict.nodup_keys_set _ _ _ hbn, SDict.nodup_keys_set _ _ _ hcn, ?_, ?_⟩, ?_⟩
  · intro m' hm'
    show (s.buffers.set m (s.buffers.get m ++ [b])).get m' = []
    rw [SDict.mem_keys_set] at hm'
    push_neg at hm'
    rw [SDict.get_set_ne _ _ hm'.2]
    exact hbo m' hm'.1
  · intro m' hm'
    show (s.counts.set m (s.counts.get m + n)).get m' = 0
    rw [SDict.mem_keys_set] at hm'
    push_neg at hm'
    rw [SDict.get_set_ne _ _ hm'.2]
    exact hco m' hm'.1
  · intro m'
    show (s.counts.set m (s.counts.get m + n)).get m' =
      (((s.buffers.set m (s.buffers.get m ++ [b])).get m').map rowCount).sum
    by_cases hmm : m' = m
    · subst hmm
      rw [SDict.get_set_self, SDict.get_set_self, List.map_append, List.sum_append,
        hcounts m']
      simp [hn]
    · rw [SDict.get_set_ne _ _ hmm, SDict.get_set_ne _ _ hmm]
      exact hcounts m'

theorem Outcome.andThen_state_all {β : Type} (o : Outcome β) (f : WState → Outcome β)
    (P : WState → Prop) (h1 : P o.state) (h2 : ∀ st, P st → P (f st).state) :
    P (o.andThen f).state :=
  Outcome.andThen_state o f P h1 (h2 o.state)

theorem flushAll_inv {ε : Type} (sink : Sink ε) (now : Int) (s : WState) (h : StateInv s) :
    StateInv (flushAll sink now s).state :=
  flushAllAux_inv sink now s.buffers.keys s h

theorem checkTriggers_inv {ε : Type} (cfg : Config) (sink : Sink ε) (now : Int)
    (m : String) (s : WState) (h : StateInv s) :
    StateInv (checkTriggers cfg sink now m s).state := by
  unfold checkTriggers
  refine Outcome.andThen_state_all _ _ StateInv ?_ fun st h' => ?_
  · split
    · exact flushMeasurement_inv sink now s m h
    · exact h
  · dsimp only
    split
    · exact flushAll_inv sink now st h'
    · exact h'

theorem write_inv {ε : Type} (cfg : Config) (sink : Sink ε) (r : Record) (wall now : Int)
    (s : WState) (h : StateInv s) : StateInv (write cfg sink r wall now s).state := by
  by_cases h1 : r.measurement = none ∨ r.measurement = some ""
  · unfold write
    rw [if_pos h1]
    exact h
  · by_cases h2 : r.fields = []
    · unfold write
      rw [if_neg h1, if_pos h2]
      exact h
    · push_neg at h1
      obtain ⟨hn, hs⟩ := h1
      match hm : r.measurement with
      | none => exact absurd hm hn
      | some m =>
        have hm' : m ≠ "" := fun e => hs (by rw [hm, e])
        rw [write_valid_eq cfg sink r wall now s m hm hm' h2, Outcome.mapErr_state]
        exact checkTriggers_inv cfg sink now m _
          (append_state_inv s m _ 1 (rowCount_recordToColumns r wall) h)

theorem writeColumnar_inv {ε : Type} (cfg : Config) (sink : Sink ε) (m : String)
    (cols : Columns) (now : Int) (s : WState) (h : StateInv s) :
    StateInv (writeColumnar cfg sink m cols now s).state := by
  by_cases hc : cols = []
  · subst hc
    rw [writeColumnar_empty_eq]
    exact h
  · rw [writeColumnar_ne_eq cfg sink m cols now s hc, Outcome.mapErr_state]
    exact checkTriggers_inv cfg sink now m _ (append_state_inv s m cols (rowCount cols) rfl h)

theorem flushOp_inv {ε : Type} (sink : Sink ε) (now : Int) (s : WState) (h : StateInv s) :
    StateInv (flushOp (ε := ε) sink now s).state := by
  show StateInv ((flushAll sink now s).mapErr WError.sinkErr).state
  rw [Outcome.mapErr_state]
  exact flushAll_inv sink now s h

theorem closeOp_inv {ε : Type} (sink : Sink ε) (now : Int) (s : WState) (h : StateInv s) :
    StateInv (closeOp (ε := ε) sink now s).state := by
  unfold closeOp
  split
  · exact h
  · have hinv := flushAll_inv sink now s h
    cases he : (flushAll sink now s).err with
    | some e =>
      simp only [he]
      exact hinv
    | none =>
      simp only [he]
      exact hinv

theorem reachable_inv (cfg : Config) (s : WState) (h : Reachable cfg s) : StateInv s := by
  induction h with
  | init t0 => exact initState_inv t0
  | stepWrite sink r wall now _ ih => exact write_inv _ _ _ _ _ _ ih
  | stepWriteColumnar sink m cols now _ _ ih => exact writeColumnar_inv _ _ _ _ _ _ ih
  | stepFlush sink now _ ih => exact flushOp_inv _ _ _ ih
  | stepClose sink now _ ih => exact closeOp_inv _ _ _ ih

/-! ### Write sequences without triggered flushes -/

theorem write_noTrigger {ε : Type} (cfg : Config) (sink : Sink ε) (r : Record)
    (wall now : Int) (s : WState) (m : String) (hmeas : r.measurement = some m)
    (hm : m ≠ "") (hf : r.fields ≠ [])
    (hsize : s.counts.get m + 1 < cfg.batchSize)
    (htime : now - s.lastFlushTime < cfg.flushInterval) :
    write cfg sink r wall now s =
      ⟨{ s with buffers := s.buffers.set m (s.buffers.get m ++ [recordToColumns r wall]), counts := s.counts.set m (s.counts.get m + 1) }, [], none⟩ := by
  rw [write_valid_eq cfg sink r wall now s m hmeas hm hf]
  set s1 : WState := { s with buffers := s.buffers.set m (s.buffers.get m ++ [recordToColumns r wall]), counts := s.counts.set m (s.counts.get m + 1) } with hs1
  have hc1 : s1.counts.get m < cfg.batchSize := by
    rw [hs1]
    show (s.counts.set m (s.counts.get m + 1)).get m < cfg.batchSize
    rw [SDict.get_set_self]
    exact hsize
  have ht1 : ¬ cfg.flushInterval ≤ now - s1.lastFlushTime := by
    rw [hs1]
    exact not_le.mpr htime
  rw [checkTriggers_noSize cfg sink now m s1 hc1, if_neg ht1]
  rfl

theorem writeSeq_cons {ε : Type} (cfg : Config) (sink : Sink ε) (r : Record)
    (wall now : Int) (rest : List (Record × Int × Int)) (s : WState) :
    writeSeq cfg sink ((r, wall, now) :: rest) s =
      (write cfg sink r wall now s).andThen (writeSeq cfg sink rest) := rfl

theorem writeSeq_noTrigger {ε : Type} (cfg : Config) (sink : Sink ε)
    (steps : List (Record × Int × Int)) (s : WState) (m : String) (hm : m ≠ "")
    (hvalid : ∀ st ∈ steps, st.1.measurement = some m ∧ st.1.fields ≠ [])
    (hsize : s.counts.get m + steps.length < cfg.batchSize)
    (htime : ∀ st ∈ steps, st.2.2 - s.lastFlushTime < cfg.flushInterval) :
    ∃ s' : WState,
      writeSeq cfg sink steps s = ⟨s', [], none⟩ ∧
      s'.buffers.get m = s.buffers.get m ++ steps.map (fun st => recordToColumns st.1 st.2.1) ∧
      s'.counts.get m = s.counts.get m + steps.length ∧
      (∀ m', m' ≠ m → s'.buffers.get m' = s.buffers.get m' ∧ s'.counts.get m' = s.counts.get m') ∧
      s'.lastFlushTime = s.lastFlushTime := by
  induction steps generalizing s with
  | nil => exact ⟨s, rfl, by simp, by simp, fun m' _ => ⟨rfl, rfl⟩, rfl⟩
  | cons st rest ih =>
    obtain ⟨r, wall, now⟩ := st
    obtain ⟨hv1, hv2⟩ := hvalid (r, wall, now) (List.mem_cons_self _ _)
    have hlen : s.counts.get m + (rest.length + 1) < cfg.batchSize := by
      simpa [List.length_cons] using hsize
    have hw := write_noTrigger cfg sink r wall now s m hv1 hm hv2 (by omega)
      (htime (r, wall, now) (List.mem_cons_self _ _))
    rw [writeSeq_cons, hw, Outcome.andThen_pure]
    set s1 : WState := { s with buffers := s.buffers.set m (s.buffers.get m ++ [recordToColumns r wall]), counts := s.counts.set m (s.counts.get m + 1) } with hs1
    have hg1 : s1.buffers.get m = s.buffers.get m ++ [recordToColumns r wall] := by
      rw [hs1]
      exact SDict.get_set_self _ _ _
    have hg2 : s1.counts.get m = s.counts.get m + 1 := by
      rw [hs1]
      exact SDict.get_set_self _ _ _
    obtain ⟨s', he, hb, hc, hu, hl⟩ := ih s1
      (fun st hst => hvalid st (List.mem_cons_of_mem _ hst))
      (by rw [hg2]; omega)
      (fun st hst => htime st (List.mem_cons_of_mem _ hst))
    refine ⟨s', he, ?_, ?_, ?_, ?_⟩
    · rw [hb, hg1]
      simp [List.append_assoc]
    · rw [hc, hg2, List.length_cons]
      omega
    · intro m' hmm
      obtain ⟨hu1, hu2⟩ := hu m' hmm
      constructor
      · rw [hu1, hs1]
        exact SDict.get_set_ne _ _ hmm
      · rw [hu2, hs1]
        exact SDict.get_set_ne _ _ hmm
    · rw [hl, hs1]

theorem write_sizeTrigger_ok {ε : Type} (cfg : Config) (sink : Sink ε) (r : Record)
    (wall now : Int) (s : WState) (m : String) (hmeas : r.measurement = some m)
    (hm : m ≠ "") (hf : r.fields ≠ [])
    (hsize : cfg.batchSize ≤ s.counts.get m + 1)
    (hok : ∀ c, sink m c = Except.ok ())
    (hint : 0 < cfg.flushInterval) :
    write cfg sink r wall now s =
      ⟨{ s with buffers := s.buffers.set m [], counts := s.counts.set m 0, lastFlushTime := now }, [(m, mergeColumnar (s.buffers.get m ++ [recordToColumns r wall]))], none⟩ := by
  rw [write_valid_eq cfg sink r wall now s m hmeas hm hf]
  set s1 : WState := { s with buffers := s.buffers.set m (s.buffers.get m ++ [recordToColumns r wall]), counts := s.counts.set m (s.counts.get m + 1) } with hs1
  have hc1 : cfg.batchSize ≤ s1.counts.get m := by
    rw [hs1]
    show cfg.batchSize ≤ (s.counts.set m (s.counts.get m + 1)).get m
    rw [SDict.get_set_self]
    exact hsize
  have hmk : m ∈ s1.buffers.keys := by
    rw [hs1]
    show m ∈ (s.buffers.set m (s.buffers.get m ++ [recordToColumns r wall])).keys
    rw [SDict.mem_keys_set]
    exact Or.inr rfl
  have hbm : s1.buffers.get m = s.buffers.get m ++ [recordToColumns r wall] := by
    rw [hs1]
    exact SDict.get_set_self _ _ _
  have hne : s1.buffers.get m ≠ [] := by
    rw [hbm]
    simp
  rw [checkTriggers_size cfg sink now m s1 hc1,
    flushMeasurement_ok_eq sink now s1 m hmk hne (hok _), Outcome.andThen_none]
  dsimp only
  rw [if_neg (show ¬ cfg.flushInterval ≤ now - now by rw [sub_self]; exact not_le.mpr hint)]
  rw [SDict.set_set, SDict.set_set, SDict.get_set_self]
  rfl

theorem writeSeq_append {ε : Type} (cfg : Config) (sink : Sink ε)
    (a b : List (Record × Int × Int)) (s : WState) :
    writeSeq cfg sink (a ++ b) s = (writeSeq cfg sink a s).andThen (writeSeq cfg sink b) := by
  induction a generalizing s with
  | nil =>
    show writeSeq cfg sink b s = Outcome.andThen ⟨s, [], none⟩ (writeSeq cfg sink b)
    rw [Outcome.andThen_pure]
  | cons st rest ih =>
    obtain ⟨r, wall, now⟩ := st
    rw [List.cons_append, writeSeq_cons, writeSeq_cons, Outcome.andThen_assoc]
    congr 1
    funext s'
    exact ih s'

/-! ### Remaining helper lemmas for the claims -/

theorem Outcome.mapErr_err {β γ : Type} (o : Outcome β) (f : β → γ) :
    (o.mapErr f).err = o.err.map f := rfl

theorem flushMeasurement_calls {ε : Type} (sink : Sink ε) (now : Int) (s : WState)
    (m : String) (hm : m ∈ s.buffers.keys) (hne : s.buffers.get m ≠ []) :
    (flushMeasurement sink now s m).calls = [(m, mergeColumnar (s.buffers.get m))] := by
  cases hsink : sink m (mergeColumnar (s.buffers.get m)) with
  | ok u =>
    cases u
    rw [flushMeasurement_ok_eq sink now s m hm hne hsink]
  | error e =>
    rw [flushMeasurement_err_eq sink now s m e hm hne hsink]

theorem flushMeasurement_cleared {ε : Type} (sink : Sink ε) (now : Int) (s : WState)
    (m : String) (hm : m ∈ s.buffers.keys) (hne : s.buffers.get m ≠ []) :
    (flushMeasurement sink now s m).state.buffers.get m = [] ∧
    (flushMeasurement sink now s m).state.counts.get m = 0 := by
  cases hsink : sink m (mergeColumnar (s.buffers.get m)) with
  | ok u =>
    cases u
    rw [flushMeasurement_ok_eq sink now s m hm hne hsink]
    exact ⟨SDict.get_set_self _ _ _, SDict.get_set_self _ _ _⟩
  | error e =>
    rw [flushMeasurement_err_eq sink now s m e hm hne hsink]
    exact ⟨SDict.get_set_self _ _ _, SDict.get_set_self _ _ _⟩

theorem closeOp_closed_eq {ε : Type} (sink : Sink ε) (now : Int) (s : WState)
    (h : s.closed = true) : closeOp sink now s = ⟨s, [], none⟩ := by
  unfold closeOp
  rw [if_pos h]

theorem closeOp_fail_eq {ε : Type} (sink : Sink ε) (now : Int) (s : WState) (e : ε)
    (hc : s.closed = false) (he : (flushAll sink now s).err = some e) :
    closeOp sink now s =
      ⟨(flushAll sink now s).state, (flushAll sink now s).calls, some (WError.sinkErr e)⟩ := by
  unfold closeOp
  rw [if_neg (by rw [hc]; exact Bool.false_ne_true)]
  simp only [he]

theorem closeOp_ok_eq {ε : Type} (sink : Sink ε) (now : Int) (s : WState)
    (hc : s.closed = false) (he : (flushAll sink now s).err = none) :
    closeOp sink now s =
      ⟨{ (flushAll sink now s).state with closed := true }, (flushAll sink now s).calls,
        none⟩ := by
  unfold closeOp
  rw [if_neg (by rw [hc]; exact Bool.false_ne_true)]
  simp only [he]

theorem writeColumnar_noTrigger {ε : Type} (cfg : Config) (sink : Sink ε) (m : String)
    (cols : Columns) (now : Int) (s : WState) (hc : cols ≠ [])
    (hsize : s.counts.get m + rowCount cols < cfg.batchSize)
    (htime : now - s.lastFlushTime < cfg.flushInterval) :
    writeColumnar cfg sink m cols now s =
      ⟨{ s with buffers := s.buffers.set m (s.buffers.get m ++ [cols]), counts := s.counts.set m (s.counts.get m + rowCount cols) }, [], none⟩ := by
  rw [writeColumnar_ne_eq cfg sink m cols now s hc]
  set s1 : WState := { s with buffers := s.buffers.set m (s.buffers.get m ++ [cols]), counts := s.counts.set m (s.counts.get m + rowCount cols) } with hs1
  have hc1 : s1.counts.get m < cfg.batchSize := by
    rw [hs1]
    show (s.counts.set m (s.counts.get m + rowCount cols)).get m < cfg.batchSize
    rw [SDict.get_set_self]
    exact hsize
  have ht1 : ¬ cfg.flushInterval ≤ now - s1.lastFlushTime := by
    rw [hs1]
    exact not_le.mpr htime
  rw [checkTriggers_noSize cfg sink now m s1 hc1, if_neg ht1]
  rfl

theorem write_sizeTrigger_fail {ε : Type} (cfg : Config) (sink : Sink ε) (r : Record)
    (wall now : Int) (s : WState) (m : String) (e : ε) (hmeas : r.measurement = some m)
    (hm : m ≠ "") (hf : r.fields ≠ [])
    (hsize : cfg.batchSize ≤ s.counts.get m + 1)
    (herr : sink m (mergeColumnar (s.buffers.get m ++ [recordToColumns r wall])) = Except.error e) :
    write cfg sink r wall now s =
      ⟨{ s with buffers := s.buffers.set m [], counts := s.counts.set m 0 }, [(m, mergeColumnar (s.buffers.get m ++ [recordToColumns r wall]))], some (WError.sinkErr e)⟩ := by
  rw [write_valid_eq cfg sink r wall now s m hmeas hm hf]
  set s1 : WState := { s with buffers := s.buffers.set m (s.buffers.get m ++ [recordToColumns r wall]), counts := s.counts.set m (s.counts.get m + 1) } with hs1
  have hc1 : cfg.batchSize ≤ s1.counts.get m := by
    rw [hs1]
    show cfg.batchSize ≤ (s.counts.set m (s.counts.get m + 1)).get m
    rw [SDict.get_set_self]
    exact hsize
  have hmk : m ∈ s1.buffers.keys := by
    rw [hs1]
    show m ∈ (s.buffers.set m (s.buffers.get m ++ [recordToColumns r wall])).keys
    rw [SDict.mem_keys_set]
    exact Or.inr rfl
  have hbm : s1.buffers.get m = s.buffers.get m ++ [recordToColumns r wall] := by
    rw [hs1]
    exact SDict.get_set_self _ _ _
  have hne : s1.buffers.get m ≠ [] := by
    rw [hbm]
    simp
  have herr1 : sink m (mergeColumnar (s1.buffers.get m)) = Except.error e := by
    rw [hbm]
    exact herr
  rw [checkTriggers_size cfg sink now m s1 hc1,
    flushMeasurement_err_eq sink now s1 m e hmk hne herr1, Outcome.andThen_some]
  rw [SDict.set_set, SDict.set_set, SDict.get_set_self]
  rfl

theorem writeColumnar_sizeTrigger_fail {ε : Type} (cfg : Config) (sink : Sink ε)
    (m : String) (cols : Columns) (now : Int) (s : WState) (e : ε) (hc : cols ≠ [])
    (hsize : cfg.batchSize ≤ s.counts.get m + rowCount cols)
    (herr : sink m (mergeColumnar (s.buffers.get m ++ [cols])) = Except.error e) :
    writeColumnar cfg sink m cols now s =
      ⟨{ s with buffers := s.buffers.set m [], counts := s.counts.set m 0 }, [(m, mergeColumnar (s.buffers.get m ++ [cols]))], some (WError.sinkErr e)⟩ := by
  rw [writeColumnar_ne_eq cfg sink m cols now s hc]
  set s1 : WState := { s with buffers := s.buffers.set m (s.buffers.get m ++ [cols]), counts := s.counts.set m (s.counts.get m + rowCount cols) } with hs1
  have hc1 : cfg.batchSize ≤ s1.counts.get m := by
    rw [hs1]
    show cfg.batchSize ≤ (s.counts.set m (s.counts.get m + rowCount cols)).get m
    rw [SDict.get_set_self]
    exact hsize
  have hmk : m ∈ s1.buffers.keys := by
    rw [hs1]
    show m ∈ (s.buffers.set m (s.buffers.get m ++ [cols])).keys
    rw [SDict.mem_keys_set]
    exact Or.inr rfl
  have hbm : s1.buffers.get m = s.buffers.get m ++ [cols] := by
    rw [hs1]
    exact SDict.get_set_self _ _ _
  have hne : s1.buffers.get m ≠ [] := by
    rw [hbm]
    simp
  have herr1 : sink m (mergeColumnar (s1.buffers.get m)) = Except.error e := by
    rw [hbm]
    exact herr
  rw [checkTriggers_size cfg sink now m s1 hc1,
    flushMeasurement_err_eq sink now s1 m e hmk hne herr1, Outcome.andThen_some]
  rw [SDict.set_set, SDict.set_set, SDict.get_set_self]
  rfl

theorem flushAll_ok_spec {ε : Type} (sink : Sink ε) (now : Int) (s : WState)
    (hok : ∀ m c, sink m c = Except.ok ()) (hinv : StateInv s) :
    (flushAll sink now s).err = none ∧
    (∀ m', (flushAll sink now s).state.buffers.get m' = [] ∧
           (flushAll sink now s).state.counts.get m' = 0) ∧
    ((∃ m', s.buffers.get m' ≠ []) → (flushAll sink now s).state.lastFlushTime = now) ∧
    (∀ m', s.buffers.get m' ≠ [] → m' ∈ (flushAll sink now s).calls.map Prod.fst) := by
  obtain ⟨⟨hbn, hcn, hbo, hco⟩, hcounts⟩ := hinv
  refine ⟨flushAllAux_ok_err sink now _ s hok, ?_, ?_, ?_⟩
  · intro m'
    by_cases hk : m' ∈ s.buffers.keys
    · have h1 := flushAllAux_ok_cleared sink now s.buffers.keys s hok (fun _ h => h) m' hk
      have hinv2 := flushAllAux_inv sink now s.buffers.keys s ⟨⟨hbn, hcn, hbo, hco⟩, hcounts⟩
      refine ⟨h1, ?_⟩
      show (flushAllAux sink now s.buffers.keys s).state.counts.get m' = 0
      rw [hinv2.2 m', h1]
      rfl
    · obtain ⟨hu1, hu2⟩ := flushAllAux_untouched sink now s.buffers.keys s m' hk
      refine ⟨hu1.trans (hbo m' hk), hu2.trans ?_⟩
      rw [hcounts m', hbo m' hk]
      rfl
  · rintro ⟨m', hm'⟩
    have hk : m' ∈ s.buffers.keys := by
      by_contra hk
      exact hm' (hbo m' hk)
    exact flushAllAux_ok_lastFlush sink now _ s hok (fun _ h => h) ⟨m', hk, hm'⟩
  · intro m' hm'
    have hk : m' ∈ s.buffers.keys := by
      by_contra hk
      exact hm' (hbo m' hk)
    exact flushAllAux_ok_calls sink now _ s hok (fun _ h => h) m' hk hm'

/-! ### Claim theorems -/

theorem exists_cons_cons_of_two_le {α : Type _} (l : List α) (h : 2 ≤ l.length) :
    ∃ a b t, l = a :: b :: t := by
  match l with
  | [] => simp at h
  | [a] => simp at h
  | a :: b :: t => exact ⟨a, b, t, rfl⟩

/-- C1: flushing a measurement whose pending list holds two or more columnar
batches sends exactly one merged mapping to the Write Sink whose key set is
the union of the pending batches' column names and in which each column's
value sequence is the concatenation, in batch-arrival order, of that column's
values from each batch containing the column (a batch missing the column
contributes nothing); a measurement with exactly one pending batch has that
batch passed to the sink unchanged. -/
theorem c1_merge_semantics {ε : Type} (sink : Sink ε) (now : Int) (s : WState) (m : String)
    (hm : m ∈ s.buffers.keys) :
    (2 ≤ (s.buffers.get m).length →
      (flushMeasurement sink now s m).calls = [(m, mergeColumnar (s.buffers.get m))] ∧
      (∀ k, k ∈ colKeys (mergeColumnar (s.buffers.get m)) ↔
        ∃ b ∈ s.buffers.get m, k ∈ colKeys b) ∧
      (∀ k, (∃ b ∈ s.buffers.get m, k ∈ colKeys b) →
        colLookup (mergeColumnar (s.buffers.get m)) k =
          some (((s.buffers.get m).filterMap fun b => colLookup b k).flatten))) ∧
    (∀ b, s.buffers.get m = [b] → (flushMeasurement sink now s m).calls = [(m, b)]) := by
  constructor
  · intro h2
    have hne : s.buffers.get m ≠ [] := by
      intro h
      rw [h] at h2
      exact absurd h2 (by simp)
    obtain ⟨b1, b2, rest, hbs⟩ := exists_cons_cons_of_two_le _ h2
    refine ⟨flushMeasurement_calls sink now s m hm hne, ?_, ?_⟩
    · intro k
      rw [hbs, mergeColumnar_keys b1 b2 rest, List.mem_dedup, mem_flatten_keys]
    · intro k hk
      rw [hbs] at hk
      rw [hbs, mergeColumnar_lookup b1 b2 rest k,
        if_pos ((mem_flatten_keys (b1 :: b2 :: rest) k).mpr hk)]
  · intro b hb
    have hne : s.buffers.get m ≠ [] := by
      rw [hb]
      simp
    rw [flushMeasurement_calls sink now s m hm hne, hb, mergeColumnar_single]

/-- C5: a `write` whose record lacks a measurement (missing or empty string)
or lacks fields (missing or empty mapping) raises the invalid-argument error
before any buffer mutation: the state is exactly the pre-call state, the
pending count is unchanged, and the Write Sink is never invoked. -/
theorem c5_validation_no_mutation {ε : Type} (cfg : Config) (sink : Sink ε) (r : Record)
    (wall now : Int) (s : WState)
    (h : r.measurement = none ∨ r.measurement = some "" ∨ r.fields = []) :
    (write cfg sink r wall now s).state = s ∧
    (write cfg sink r wall now s).calls = [] ∧
    pendingCount (write cfg sink r wall now s).state = pendingCount s ∧
    ∃ msg, (write cfg sink r wall now s).err = some (WError.invalidArg msg) := by
  by_cases h1 : r.measurement = none ∨ r.measurement = some ""
  · unfold write
    rw [if_pos h1]
    exact ⟨rfl, rfl, rfl, _, rfl⟩
  · have h2 : r.fields = [] := by tauto
    unfold write
    rw [if_neg h1, if_pos h2]
    exact ⟨rfl, rfl, rfl, _, rfl⟩

/-- C9: when a `close` succeeds the writer is left in the closed state, and a
second `close` on the resulting state performs no flush, makes no sink
invocation and raises nothing: close is idempotent and the final flush runs
exactly once. -/
theorem c9_close_idempotent {ε ε' : Type} (sink : Sink ε) (sink2 : Sink ε')
    (now now2 : Int) (s : WState) (h : (closeOp sink now s).err = none) :
    (closeOp sink now s).state.closed = true ∧
    closeOp sink2 now2 (closeOp sink now s).state = ⟨(closeOp sink now s).state, [], none⟩ := by
  by_cases hc : s.closed = true
  · rw [closeOp_closed_eq sink now s hc]
    exact ⟨hc, closeOp_closed_eq sink2 now2 s hc⟩
  · have hc' : s.closed = false := by
      cases hcl : s.closed
      · rfl
      · exact absurd hcl hc
    cases he : (flushAll sink now s).err with
    | some e =>
      rw [closeOp_fail_eq sink now s e hc' he] at h
      exact absurd h (by simp)
    | none =>
      rw [closeOp_ok_eq sink now s hc' he]
      exact ⟨rfl, closeOp_closed_eq sink2 now2 _ rfl⟩

/-- C10: `write_columnar` validates nothing about the measurement: with a
nonempty column mapping a batch is buffered under the given measurement even
when that measurement is the empty string (no invalid-argument error, unlike
`write`), and a later flush sends it to the sink under the empty name; with
an empty column mapping the call is a silent no-op that leaves the state
unchanged and invokes the sink zero times. -/
theorem c10_writeColumnar_no_validation {ε ε' : Type} (cfg : Config) (sink : Sink ε)
    (sink2 : Sink ε') (now now2 : Int) (s : WState) (cols : Columns) (m0 : String) :
    (writeColumnar cfg sink m0 [] now s = ⟨s, [], none⟩) ∧
    (cols ≠ [] → s.counts.get "" + rowCount cols < cfg.batchSize →
      now - s.lastFlushTime < cfg.flushInterval →
      writeColumnar cfg sink "" cols now s =
        ⟨{ s with buffers := s.buffers.set "" (s.buffers.get "" ++ [cols]), counts := s.counts.set "" (s.counts.get "" + rowCount cols) }, [], none⟩) ∧
    (cols ≠ [] → s.counts.get "" + rowCount cols < cfg.batchSize →
      now - s.lastFlushTime < cfg.flushInterval →
      (flushMeasurement sink2 now2 (writeColumnar cfg sink "" cols now s).state "").calls =
        [("", mergeColumnar (s.buffers.get "" ++ [cols]))]) := by
  refine ⟨writeColumnar_empty_eq cfg sink m0 now s, ?_, ?_⟩
  · intro hc hsize htime
    exact writeColumnar_noTrigger cfg sink "" cols now s hc hsize htime
  · intro hc hsize htime
    rw [writeColumnar_noTrigger cfg sink "" cols now s hc hsize htime]
    have hmk : "" ∈ (s.buffers.set "" (s.buffers.get "" ++ [cols])).keys := by
      rw [SDict.mem_keys_set]
      exact Or.inr rfl
    have hget : (s.buffers.set "" (s.buffers.get "" ++ [cols])).get "" =
        s.buffers.get "" ++ [cols] := SDict.get_set_self _ _ _
    have hne : (s.buffers.set "" (s.buffers.get "" ++ [cols])).get "" ≠ [] := by
      rw [hget]
      simp
    have := flushMeasurement_calls sink2 now2
      ⟨s.buffers.set "" (s.buffers.get "" ++ [cols]), s.counts.set "" (s.counts.get "" + rowCount cols), s.lastFlushTime, s.closed⟩ "" hmk hne
    rw [this, hget]

/-- C2: every flush removes the flushed measurement's pending batches and
zeroes its count before invoking the Write Sink, so when the sink raises, the
cleared state is not restored and the sink's error propagates unchanged to
whichever caller triggered the flush: directly from `_flush_measurement`, and
through a size-triggered `write`, a size-triggered `write_columnar`, an
explicit `flush`, or `close`. -/
theorem c2_clear_before_sink {ε : Type} (e : ε) (now : Int) :
    (∀ (sink : Sink ε) (s : WState) (m : String), m ∈ s.buffers.keys →
      s.buffers.get m ≠ [] →
      sink m (mergeColumnar (s.buffers.get m)) = Except.error e →
      flushMeasurement sink now s m =
        ⟨{ s with buffers := s.buffers.set m [], counts := s.counts.set m 0 }, [(m, mergeColumnar (s.buffers.get m))], some e⟩) ∧
    (∀ (sink : Sink ε) (cfg : Config) (r : Record) (wall : Int) (s : WState) (m : String),
      (∀ m' c, sink m' c = Except.error e) →
      r.measurement = some m → m ≠ "" → r.fields ≠ [] →
      cfg.batchSize ≤ s.counts.get m + 1 →
      (write cfg sink r wall now s).err = some (WError.sinkErr e) ∧
      (write cfg sink r wall now s).state.buffers.get m = [] ∧
      (write cfg sink r wall now s).state.counts.get m = 0) ∧
    (∀ (sink : Sink ε) (cfg : Config) (cols : Columns) (s : WState) (m : String),
      (∀ m' c, sink m' c = Except.error e) →
      cols ≠ [] → cfg.batchSize ≤ s.counts.get m + rowCount cols →
      (writeColumnar cfg sink m cols now s).err = some (WError.sinkErr e) ∧
      (writeColumnar cfg sink m cols now s).state.buffers.get m = [] ∧
      (writeColumnar cfg sink m cols now s).state.counts.get m = 0) ∧
    (∀ (sink : Sink ε) (s : WState),
      (∀ m' c, sink m' c = Except.error e) →
      (∃ m ∈ s.buffers.keys, s.buffers.get m ≠ []) →
      (flushOp sink now s).err = some (WError.sinkErr e) ∧
      ∃ m, s.buffers.get m ≠ [] ∧ (flushOp sink now s).state.buffers.get m = [] ∧
        (flushOp sink now s).state.counts.get m = 0) ∧
    (∀ (sink : Sink ε) (s : WState),
      (∀ m' c, sink m' c = Except.error e) → s.closed = false →
      (∃ m ∈ s.buffers.keys, s.buffers.get m ≠ []) →
      (closeOp sink now s).err = some (WError.sinkErr e) ∧
      ∃ m, s.buffers.get m ≠ [] ∧ (closeOp sink now s).state.buffers.get m = [] ∧
        (closeOp sink now s).state.counts.get m = 0) := by
  refine ⟨?_, ?_, ?_, ?_, ?_⟩
  · intro sink s m hm hne herr
    exact flushMeasurement_err_eq sink now s m e hm hne herr
  · intro sink cfg r wall s m hbad hmeas hm hf hsize
    rw [write_sizeTrigger_fail cfg sink r wall now s m e hmeas hm hf hsize (hbad m _)]
    exact ⟨rfl, SDict.get_set_self _ _ _, SDict.get_set_self _ _ _⟩
  · intro sink cfg cols s m hbad hc hsize
    rw [writeColumnar_sizeTrigger_fail cfg sink m cols now s e hc hsize (hbad m _)]
    exact ⟨rfl, SDict.get_set_self _ _ _, SDict.get_set_self _ _ _⟩
  · intro sink s hbad hex
    obtain ⟨h1, m, hmk, hne, h2, h3⟩ :=
      flushAllAux_fail sink now e s.buffers.keys s hbad (fun _ h => h) hex
    exact ⟨by rw [show (flushOp (ε := ε) sink now s).err = (flushAllAux sink now s.buffers.keys s).err.map WError.sinkErr from rfl, h1]; rfl,
      m, hne, h2, h3⟩
  · intro sink s hbad hc hex
    obtain ⟨h1, m, hmk, hne, h2, h3⟩ :=
      flushAllAux_fail sink now e s.buffers.keys s hbad (fun _ h => h) hex
    rw [closeOp_fail_eq sink now s e hc h1]
    exact ⟨rfl, m, hne, h2, h3⟩

/-- C7: flushing a measurement with pending batches initiates exactly one sink
invocation whose payload is the merge of exactly the pre-flush pending batches
— every pending batch's column values are embedded in that single payload —
whether the sink succeeds or raises; the pending list is cleared atomically
with the send, so a repeated flush of the measurement performs no further
sink invocation: no batch is lost from the handoff and no batch is flushed
twice. -/
theorem c7_no_loss_no_double_flush {ε ε' : Type} (sink : Sink ε) (sink2 : Sink ε')
    (now now2 : Int) (s : WState) (m : String)
    (hm : m ∈ s.buffers.keys) (hne : s.buffers.get m ≠ []) :
    (flushMeasurement sink now s m).calls = [(m, mergeColumnar (s.buffers.get m))] ∧
    (∀ b ∈ s.buffers.get m, ∀ k vs, colLookup b k = some vs →
      ∃ ms, colLookup (mergeColumnar (s.buffers.get m)) k = some ms ∧ vs <:+: ms) ∧
    (flushMeasurement sink now s m).state.buffers.get m = [] ∧
    (flushMeasurement sink2 now2 (flushMeasurement sink now s m).state m).calls = [] := by
  refine ⟨flushMeasurement_calls sink now s m hm hne, ?_,
    (flushMeasurement_cleared sink now s m hm hne).1, ?_⟩
  · intro b hb k vs hkv
    rcases hlen : s.buffers.get m with _ | ⟨b1, t⟩
    · rw [hlen] at hb
      cases hb
    · rcases t with _ | ⟨b2, rest⟩
      · rw [hlen] at hb
        rw [List.mem_singleton] at hb
        subst hb
        rw [mergeColumnar_single]
        exact ⟨vs, hkv, List.infix_refl vs⟩
      · rw [hlen] at hb
        rw [mergeColumnar_lookup b1 b2 rest k,
          if_pos ((mem_flatten_keys (b1 :: b2 :: rest) k).mpr
            ⟨b, hb, mem_colKeys_of_lookup hkv⟩)]
        refine ⟨_, rfl, ?_⟩
        refine List.infix_of_mem_flatten ?_
        rw [List.mem_filterMap]
        exact ⟨b, hb, hkv⟩
  · exact congrArg Outcome.calls (flushMeasurement_skip sink2 now2 _ m
      (Or.inr (flushMeasurement_cleared sink now s m hm hne).1))

/-- C8 counterexample: a writer with one pending batch whose close hits a
failing sink propagates the error but does NOT transition to the closed
state, contradicting the claim that the writer is nevertheless closed. -/
theorem c8_close_failure_counterexample :
    (closeOp (fun _ _ => (Except.error "boom" : Except String Unit)) 1
      ⟨⟨["cpu"], fun k => if k = "cpu" then [[("x", [Value.int 1])]] else []⟩, ⟨["cpu"], fun k => if k = "cpu" then 1 else 0⟩, 0, false⟩).err
        = some (WError.sinkErr "boom") ∧
    (closeOp (fun _ _ => (Except.error "boom" : Except String Unit)) 1
      ⟨⟨["cpu"], fun k => if k = "cpu" then [[("x", [Value.int 1])]] else []⟩, ⟨["cpu"], fun k => if k = "cpu" then 1 else 0⟩, 0, false⟩).state.closed
        = false := by
  constructor <;> rfl

/-- C8 amended: if the final flush performed by `close` raises a Write Sink
failure, the error propagates to the caller, but the writer does not
transition to the closed state: the closed flag stays false, so a subsequent
`close` re-runs the flush logic instead of being a guaranteed no-op. -/
theorem c8_close_failure_not_closed {ε : Type} (sink : Sink ε) (e : ε) (now : Int)
    (s : WState) (hc : s.closed = false) (hbad : ∀ m c, sink m c = Except.error e)
    (hex : ∃ m ∈ s.buffers.keys, s.buffers.get m ≠ []) :
    (closeOp sink now s).err = some (WError.sinkErr e) ∧
    (closeOp sink now s).state.closed = false := by
  obtain ⟨h1, _⟩ := flushAllAux_fail sink now e s.buffers.keys s hbad (fun _ h => h) hex
  rw [closeOp_fail_eq sink now s e hc h1]
  refine ⟨rfl, ?_⟩
  show (flushAllAux sink now s.buffers.keys s).state.closed = false
  rw [flushAllAux_closed]
  exact hc

/-- C6: in every state reachable by any sequence of write, write_columnar,
flush and close operations — with every columnar batch submitted through
`write_columnar` having all its column sequences of equal length — each
measurement's count equals the sum of the row counts of its pending batches,
and `pending_count` is the sum of the counts over all measurements (the count
dictionary's keys carry no duplicates and every measurement outside them has
count zero). -/
theorem c6_count_invariant (cfg : Config) (s : WState) (h : Reachable cfg s) :
    (∀ m, s.counts.get m = ((s.buffers.get m).map rowCount).sum) ∧
    (∀ m, m ∉ s.counts.keys → s.counts.get m = 0) ∧
    s.counts.keys.Nodup ∧
    pendingCount s = (s.counts.keys.map fun m => s.counts.get m).sum := by
  obtain ⟨⟨hbn, hcn, hbo, hco⟩, hcounts⟩ := reachable_inv cfg s h
  exact ⟨hcounts, hco, hcn, rfl⟩

/-- C4: when, at the point the global time trigger is evaluated, the elapsed
monotonic time since the last flush is at least the flush interval, a `write`
or `write_columnar` call flushes every measurement with pending data — not
only the measurement just written — empties every buffer and count, and
updates the last flush time to the current monotonic reading; the
per-measurement size trigger is evaluated before the time trigger, so when
both fire the first sink call is the size-triggered flush of the written
measurement. -/
theorem c4_time_trigger_flushes_all {ε : Type} (cfg : Config) (sink : Sink ε) (now : Int)
    (hok : ∀ m' c, sink m' c = Except.ok ()) :
    (∀ (r : Record) (wall : Int) (s : WState) (m : String), StateInv s →
      r.measurement = some m → m ≠ "" → r.fields ≠ [] →
      s.counts.get m + 1 < cfg.batchSize →
      cfg.flushInterval ≤ now - s.lastFlushTime →
      (write cfg sink r wall now s).err = none ∧
      (∀ m', (write cfg sink r wall now s).state.buffers.get m' = [] ∧
             (write cfg sink r wall now s).state.counts.get m' = 0) ∧
      (write cfg sink r wall now s).state.lastFlushTime = now ∧
      (∀ m', s.buffers.get m' ≠ [] ∨ m' = m →
        m' ∈ (write cfg sink r wall now s).calls.map Prod.fst)) ∧
    (∀ (cols : Columns) (s : WState) (m : String), StateInv s →
      cols ≠ [] →
      s.counts.get m + rowCount cols < cfg.batchSize →
      cfg.flushInterval ≤ now - s.lastFlushTime →
      (writeColumnar cfg sink m cols now s).err = none ∧
      (∀ m', (writeColumnar cfg sink m cols now s).state.buffers.get m' = [] ∧
             (writeColumnar cfg sink m cols now s).state.counts.get m' = 0) ∧
      (writeColumnar cfg sink m cols now s).state.lastFlushTime = now ∧
      (∀ m', s.buffers.get m' ≠ [] ∨ m' = m →
        m' ∈ (writeColumnar cfg sink m cols now s).calls.map Prod.fst)) ∧
    (∀ (r : Record) (wall : Int) (s : WState) (m : String), StateInv s →
      r.measurement = some m → m ≠ "" → r.fields ≠ [] →
      cfg.batchSize ≤ s.counts.get m + 1 →
      cfg.flushInterval ≤ 0 →
      (write cfg sink r wall now s).err = none ∧
      (∀ m', (write cfg sink r wall now s).state.buffers.get m' = [] ∧
             (write cfg sink r wall now s).state.counts.get m' = 0) ∧
      (write cfg sink r wall now s).state.lastFlushTime = now ∧
      (write cfg sink r wall now s).calls.head? =
        some (m, mergeColumnar (s.buffers.get m ++ [recordToColumns r wall])) ∧
      (∀ m', s.buffers.get m' ≠ [] ∨ m' = m →
        m' ∈ (write cfg sink r wall now s).calls.map Prod.fst)) := by
  refine ⟨?_, ?_, ?_⟩
  · intro r wall s m hinv hmeas hm hf hsize htime
    rw [write_valid_eq cfg sink r wall now s m hmeas hm hf]
    set s1 : WState := { s with buffers := s.buffers.set m (s.buffers.get m ++ [recordToColumns r wall]), counts := s.counts.set m (s.counts.get m + 1) } with hs1
    have hinv1 : StateInv s1 :=
      append_state_inv s m _ 1 (rowCount_recordToColumns r wall) hinv
    have hc1 : s1.counts.get m < cfg.batchSize := by
      rw [hs1]
      show (s.counts.set m (s.counts.get m + 1)).get m < cfg.batchSize
      rw [SDict.get_set_self]
      exact hsize
    have hb1 : s1.buffers.get m = s.buffers.get m ++ [recordToColumns r wall] := by
      rw [hs1]
      exact SDict.get_set_self _ _ _
    rw [checkTriggers_noSize cfg sink now m s1 hc1, if_pos (by rw [hs1]; exact htime)]
    obtain ⟨hfa1, hfa2, hfa3, hfa4⟩ := flushAll_ok_spec sink now s1 hok hinv1
    refine ⟨by rw [Outcome.mapErr_err, hfa1]; rfl, hfa2, ?_, ?_⟩
    · refine hfa3 ⟨m, ?_⟩
      rw [hb1]
      simp
    · intro m' hm'
      rw [Outcome.mapErr_calls]
      rcases hm' with hm' | rfl
      · by_cases hmm : m' = m
        · subst hmm
          refine hfa4 m' ?_
          rw [hb1]
          simp
        · refine hfa4 m' ?_
          rw [hs1]
          show (s.buffers.set m (s.buffers.get m ++ [recordToColumns r wall])).get m' ≠ []
          rw [SDict.get_set_ne _ _ hmm]
          exact hm'
      · refine hfa4 m' ?_
        rw [hb1]
        simp
  · intro cols s m hinv hc hsize htime
    rw [writeColumnar_ne_eq cfg sink m cols now s hc]
    set s1 : WState := { s with buffers := s.buffers.set m (s.buffers.get m ++ [cols]), counts := s.counts.set m (s.counts.get m + rowCount cols) } with hs1
    have hinv1 : StateInv s1 := append_state_inv s m cols (rowCount cols) rfl hinv
    have hc1 : s1.counts.get m < cfg.batchSize := by
      rw [hs1]
      show (s.counts.set m (s.counts.get m + rowCount cols)).get m < cfg.batchSize
      rw [SDict.get_set_self]
      exact hsize
    have hb1 : s1.buffers.get m = s.buffers.get m ++ [cols] := by
      rw [hs1]
      exact SDict.get_set_self _ _ _
    rw [checkTriggers_noSize cfg sink now m s1 hc1, if_pos (by rw [hs1]; exact htime)]
    obtain ⟨hfa1, hfa2, hfa3, hfa4⟩ := flushAll_ok_spec sink now s1 hok hinv1
    refine ⟨by rw [Outcome.mapErr_err, hfa1]; rfl, hfa2, ?_, ?_⟩
    · refine hfa3 ⟨m, ?_⟩
      rw [hb1]
      simp
    · intro m' hm'
      rw [Outcome.mapErr_calls]
      rcases hm' with hm' | rfl
      · by_cases hmm : m' = m
        · subst hmm
          refine hfa4 m' ?_
          rw [hb1]
          simp
        · refine hfa4 m' ?_
          rw [hs1]
          show (s.buffers.set m (s.buffers.get m ++ [cols])).get m' ≠ []
          rw [SDict.get_set_ne _ _ hmm]
          exact hm'
      · refine hfa4 m' ?_
        rw [hb1]
        simp
  · intro r wall s m hinv hmeas hm hf hsize hint
    rw [write_valid_eq cfg sink r wall now s m hmeas hm hf]
    set s1 : WState := { s with buffers := s.buffers.set m (s.buffers.get m ++ [recordToColumns r wall]), counts := s.counts.set m (s.counts.get m + 1) } with hs1
    have hinv1 : StateInv s1 :=
      append_state_inv s m _ 1 (rowCount_recordToColumns r wall) hinv
    have hc1 : cfg.batchSize ≤ s1.counts.get m := by
      rw [hs1]
      show cfg.batchSize ≤ (s.counts.set m (s.counts.get m + 1)).get m
      rw [SDict.get_set_self]
      exact hsize
    have hb1 : s1.buffers.get m = s.buffers.get m ++ [recordToColumns r wall] := by
      rw [hs1]
      exact SDict.get_set_self _ _ _
    have hmk : m ∈ s1.buffers.keys := by
      rw [hs1]
      show m ∈ (s.buffers.set m (s.buffers.get m ++ [recordToColumns r wall])).keys
      rw [SDict.mem_keys_set]
      exact Or.inr rfl
    have hne1 : s1.buffers.get m ≠ [] := by
      rw [hb1]
      simp
    have hinv2 : StateInv (flushMeasurement sink now s1 m).state :=
      flushMeasurement_inv sink now s1 m hinv1
    rw [checkTriggers_size cfg sink now m s1 hc1]
    rw [flushMeasurement_ok_eq sink now s1 m hmk hne1 (hok m _)] at hinv2 ⊢
    rw [Outcome.andThen_none]
    dsimp only at hinv2 ⊢
    set s2 : WState := { s1 with buffers := s1.buffers.set m [], counts := s1.counts.set m 0, lastFlushTime := now } with hs2
    have hs2b : ∀ m', s2.buffers.get m' = if m' = m then [] else s1.buffers.get m' := by
      intro m'
      by_cases hmm : m' = m
      · subst hmm
        rw [if_pos rfl, hs2]
        exact SDict.get_set_self _ _ _
      · rw [if_neg hmm, hs2]
        exact SDict.get_set_ne _ _ hmm
    rw [if_pos (show cfg.flushInterval ≤ now - s2.lastFlushTime by rw [hs2]; show cfg.flushInterval ≤ now - now; rw [sub_self]; exact hint)]
    obtain ⟨hfa1, hfa2, hfa3, hfa4⟩ := flushAll_ok_spec sink now s2 hok hinv2
    refine ⟨by rw [Outcome.mapErr_err]; dsimp only; rw [hfa1]; rfl, ?_, ?_, ?_, ?_⟩
    · intro m'
      exact hfa2 m'
    · rcases flushAllAux_ok_lastFlush_or sink now s2.buffers.keys s2 hok (fun _ h => h) with hl | hl
      · exact hl
      · exact hl
    · rw [Outcome.mapErr_calls]
      dsimp only
      rw [SDict.get_set_self]
      rfl
    · intro m' hm'
      rw [Outcome.mapErr_calls]
      dsimp only
      rw [List.map_append, List.mem_append]
      by_cases hmm : m' = m
      · subst hmm
        exact Or.inl (by simp)
      · refine Or.inr (hfa4 m' ?_)
        rw [hs2b m', if_neg hmm, hs1]
        show (s.buffers.set m (s.buffers.get m ++ [recordToColumns r wall])).get m' ≠ []
        rw [SDict.get_set_ne _ _ hmm]
        rcases hm' with hm' | hm'
        · exact hm'
        · exact absurd hm' hmm

/-- C3: from a fresh writer, performing exactly batchSize successful
single-record `write` calls to one measurement (the interior calls staying
below the time trigger) causes exactly one Write Sink invocation, whose
payload is the merge of all batchSize one-row batches in call order — each
column of the payload is the concatenation, in call order, of the values
contributed by the calls carrying that column — and leaves the measurement's
pending count and the total pending count at zero; no sink invocation occurs
before the batchSize-th write. -/
theorem c3_size_trigger_exact_batch {ε : Type} (cfg : Config) (sink : Sink ε) (t0 : Int)
    (m : String) (init : List (Record × Int × Int)) (r : Record) (wall now : Int)
    (hm : m ≠ "") (hbs : cfg.batchSize = init.length + 1)
    (hint : 0 < cfg.flushInterval)
    (hvalid : ∀ st ∈ init, st.1.measurement = some m ∧ st.1.fields ≠ [])
    (hr1 : r.measurement = some m) (hr2 : r.fields ≠ [])
    (htime : ∀ st ∈ init, st.2.2 - t0 < cfg.flushInterval)
    (hok : ∀ c, sink m c = Except.ok ()) :
    (writeSeq cfg sink (init ++ [(r, wall, now)]) (initState t0)).calls =
      [(m, mergeColumnar ((init ++ [(r, wall, now)]).map fun st => recordToColumns st.1 st.2.1))] ∧
    (writeSeq cfg sink (init ++ [(r, wall, now)]) (initState t0)).err = none ∧
    (∀ k vs,
      colLookup (mergeColumnar ((init ++ [(r, wall, now)]).map fun st => recordToColumns st.1 st.2.1)) k = some vs →
      vs = ((((init ++ [(r, wall, now)]).map fun st => recordToColumns st.1 st.2.1).filterMap fun b => colLookup b k).flatten)) ∧
    (writeSeq cfg sink (init ++ [(r, wall, now)]) (initState t0)).state.counts.get m = 0 ∧
    pendingCount (writeSeq cfg sink (init ++ [(r, wall, now)]) (initState t0)).state = 0 ∧
    (writeSeq cfg sink init (initState t0)).calls = [] := by
  have hsz : (initState t0).counts.get m + init.length < cfg.batchSize := by
    show 0 + init.length < cfg.batchSize
    rw [hbs]
    omega
  obtain ⟨s', he, hb, hc, hu, hl⟩ := writeSeq_noTrigger cfg sink init (initState t0) m hm
    hvalid hsz (fun st hst => htime st hst)
  have hs'c : s'.counts.get m = init.length := by
    rw [hc]
    show 0 + init.length = init.length
    omega
  have hw := write_sizeTrigger_ok cfg sink r wall now s' m hr1 hm hr2
    (by rw [hs'c, hbs]) hok hint
  rw [writeSeq_append, he, Outcome.andThen_pure, writeSeq_cons, hw, Outcome.andThen_none]
  dsimp only [writeSeq]
  have hbm : s'.buffers.get m = init.map fun st => recordToColumns st.1 st.2.1 := by
    rw [hb]
    show [] ++ _ = _
    rw [List.nil_append]
  refine ⟨?_, rfl, ?_, ?_, ?_, rfl⟩
  · rw [hbm]
    simp [List.map_append]
  · intro k vs h
    exact mergeColumnar_lookup_eq_concat _ k vs h
  · exact SDict.get_set_self _ _ _
  · refine List.sum_eq_zero ?_
    intro x hx
    rw [List.mem_map] at hx
    obtain ⟨k, hk, rfl⟩ := hx
    show (s'.counts.set m 0).get k = 0
    by_cases hkm : k = m
    · subst hkm
      exact SDict.get_set_self _ _ _
    · rw [SDict.get_set_ne _ _ hkm]
      exact (hu k hkm).2

/-! ### Concrete witnesses -/

theorem sampleTwo_inv : StateInv sampleTwo := by
  refine ⟨⟨by decide, by decide, ?_, ?_⟩, ?_⟩
  · intro m hmem
    have hk : sampleTwo.buffers.keys = ["cpu", "mem"] := by decide
    rw [hk] at hmem
    simp only [List.mem_cons, List.not_mem_nil, or_false, not_or] at hmem
    show sampleTwo.buffers.val m = []
    simp [sampleTwo, SDict.set, SDict.empty, hmem.1, hmem.2]
  · intro m hmem
    have hk : sampleTwo.counts.keys = ["cpu", "mem"] := by decide
    rw [hk] at hmem
    simp only [List.mem_cons, List.not_mem_nil, or_false, not_or] at hmem
    show sampleTwo.counts.val m = 0
    simp [sampleTwo, SDict.set, SDict.empty, hmem.1, hmem.2]
  · intro m
    by_cases h1 : m = "cpu"
    · subst h1
      decide
    · by_cases h2 : m = "mem"
      · subst h2
        decide
      · show sampleTwo.counts.val m = ((sampleTwo.buffers.val m).map rowCount).sum
        simp [sampleTwo, SDict.set, SDict.empty, h1, h2]

theorem c1_merge_semantics_witness :
    (flushMeasurement okSink 5 sampleTwo "cpu").calls =
      [("cpu", mergeColumnar (sampleTwo.buffers.get "cpu"))] ∧
    ("y" ∈ colKeys (mergeColumnar (sampleTwo.buffers.get "cpu")) ↔
      ∃ b ∈ sampleTwo.buffers.get "cpu", "y" ∈ colKeys b) ∧
    colLookup (mergeColumnar (sampleTwo.buffers.get "cpu")) "x" =
      some (((sampleTwo.buffers.get "cpu").filterMap fun b => colLookup b "x").flatten) := by
  obtain ⟨h1, h2, h3⟩ :=
    (c1_merge_semantics okSink 5 sampleTwo "cpu" (by decide)).1 (by decide)
  exact ⟨h1, h2 "y", h3 "x" (by decide)⟩

theorem c2_clear_before_sink_witness :
    flushMeasurement failSink 9 sampleTwo "cpu" =
      ⟨{ sampleTwo with buffers := sampleTwo.buffers.set "cpu" [], counts := sampleTwo.counts.set "cpu" 0 }, [("cpu", mergeColumnar (sampleTwo.buffers.get "cpu"))], some ()⟩ ∧
    (write ⟨1, 100⟩ failSink sampleRecord 0 9 sampleTwo).err = some (WError.sinkErr ()) ∧
    (writeColumnar ⟨1, 100⟩ failSink "cpu" [("z", [Value.int 4])] 9 sampleTwo).state.counts.get "cpu" = 0 ∧
    (flushOp failSink 9 sampleTwo).err = some (WError.sinkErr ()) ∧
    (closeOp failSink 9 sampleTwo).err = some (WError.sinkErr ()) := by
  obtain ⟨t1, t2, t3, t4, t5⟩ := c2_clear_before_sink (ε := Unit) () 9
  refine ⟨t1 failSink sampleTwo "cpu" (by decide) (by decide) rfl, ?_, ?_, ?_, ?_⟩
  · exact (t2 failSink ⟨1, 100⟩ sampleRecord 0 sampleTwo "cpu" (fun _ _ => rfl) rfl
      (by decide) (by decide) (by decide)).1
  · exact (t3 failSink ⟨1, 100⟩ [("z", [Value.int 4])] sampleTwo "cpu" (fun _ _ => rfl)
      (by decide) (by decide)).2.2
  · exact (t4 failSink sampleTwo (fun _ _ => rfl) (by decide)).1
  · exact (t5 failSink sampleTwo (fun _ _ => rfl) rfl (by decide)).1

theorem c3_size_trigger_exact_batch_witness :
    (writeSeq ⟨2, 100⟩ okSink [(⟨some "cpu", some 1, [("u", Value.int 10)], []⟩, 0, 1), (⟨some "cpu", some 2, [("u", Value.int 20)], []⟩, 0, 2)] (initState 0)).calls =
      [("cpu", mergeColumnar ([(⟨some "cpu", some 1, [("u", Value.int 10)], []⟩, (0 : Int), (1 : Int)), (⟨some "cpu", some 2, [("u", Value.int 20)], []⟩, 0, 2)].map fun st => recordToColumns st.1 st.2.1))] ∧
    pendingCount (writeSeq ⟨2, 100⟩ okSink [(⟨some "cpu", some 1, [("u", Value.int 10)], []⟩, 0, 1), (⟨some "cpu", some 2, [("u", Value.int 20)], []⟩, 0, 2)] (initState 0)).state = 0 ∧
    (writeSeq ⟨2, 100⟩ okSink [(⟨some "cpu", some 1, [("u", Value.int 10)], []⟩, 0, 1)] (initState 0)).calls = [] := by
  obtain ⟨h1, _, _, _, h5, h6⟩ := c3_size_trigger_exact_batch ⟨2, 100⟩ okSink 0 "cpu"
    [(⟨some "cpu", some 1, [("u", Value.int 10)], []⟩, 0, 1)]
    ⟨some "cpu", some 2, [("u", Value.int 20)], []⟩ 0 2
    (by decide) rfl (by decide) (by decide) rfl (by decide) (by decide) (fun _ => rfl)
  exact ⟨h1, h5, h6⟩

theorem c4_time_trigger_flushes_all_witness :
    (write ⟨10, 0⟩ okSink sampleRecord 0 50 sampleTwo).state.buffers.get "mem" = [] ∧
    (write ⟨10, 0⟩ okSink sampleRecord 0 50 sampleTwo).state.lastFlushTime = 50 ∧
    "mem" ∈ (write ⟨10, 0⟩ okSink sampleRecord 0 50 sampleTwo).calls.map Prod.fst ∧
    (write ⟨3, 0⟩ okSink sampleRecord 0 50 sampleTwo).calls.head? =
      some ("cpu", mergeColumnar (sampleTwo.buffers.get "cpu" ++ [recordToColumns sampleRecord 0])) ∧
    (writeColumnar ⟨10, 0⟩ okSink "disk" [("w", [Value.int 9])] 50 sampleTwo).state.buffers.get "cpu" = [] := by
  obtain ⟨ta, tb, _⟩ := c4_time_trigger_flushes_all ⟨10, 0⟩ okSink 50 (fun _ _ => rfl)
  obtain ⟨_, _, tc⟩ := c4_time_trigger_flushes_all ⟨3, 0⟩ okSink 50 (fun _ _ => rfl)
  obtain ⟨ha1, ha2, ha3, ha4⟩ := ta sampleRecord 0 sampleTwo "cpu" sampleTwo_inv rfl
    (by decide) (by decide) (by decide) (by decide)
  obtain ⟨hc1, hc2, hc3, hc4, hc5⟩ := tc sampleRecord 0 sampleTwo "cpu" sampleTwo_inv rfl
    (by decide) (by decide) (by decide) (by decide)
  obtain ⟨hb1, hb2, hb3, hb4⟩ := tb [("w", [Value.int 9])] sampleTwo "disk" sampleTwo_inv
    (by decide) (by decide) (by decide)
  exact ⟨(ha2 "mem").1, ha3, ha4 "mem" (Or.inl (by decide)), hc4, (hb2 "cpu").1⟩

theorem c5_validation_no_mutation_witness :
    (write ⟨10, 100⟩ okSink ⟨some "", none, [("x", Value.int 1)], []⟩ 0 1 (initState 0)).state = initState 0 ∧
    (write ⟨10, 100⟩ okSink ⟨some "", none, [("x", Value.int 1)], []⟩ 0 1 (initState 0)).calls = [] ∧
    pendingCount (write ⟨10, 100⟩ okSink ⟨some "", none, [("x", Value.int 1)], []⟩ 0 1 (initState 0)).state = pendingCount (initState 0) := by
  obtain ⟨h1, h2, h3, _⟩ := c5_validation_no_mutation ⟨10, 100⟩ okSink
    ⟨some "", none, [("x", Value.int 1)], []⟩ 0 1 (initState 0) (Or.inr (Or.inl rfl))
  exact ⟨h1, h2, h3⟩

theorem c6_count_invariant_witness :
    (write ⟨10, 100⟩ okSink sampleRecord 0 1 (initState 0)).state.counts.get "cpu" =
      (((write ⟨10, 100⟩ okSink sampleRecord 0 1 (initState 0)).state.buffers.get "cpu").map rowCount).sum ∧
    pendingCount (write ⟨10, 100⟩ okSink sampleRecord 0 1 (initState 0)).state =
      ((write ⟨10, 100⟩ okSink sampleRecord 0 1 (initState 0)).state.counts.keys.map
        fun m => (write ⟨10, 100⟩ okSink sampleRecord 0 1 (initState 0)).state.counts.get m).sum := by
  obtain ⟨h1, _, _, h4⟩ := c6_count_invariant ⟨10, 100⟩ _
    (Reachable.stepWrite okSink sampleRecord 0 1 (Reachable.init 0))
  exact ⟨h1 "cpu", h4⟩

theorem c7_no_loss_no_double_flush_witness :
    (flushMeasurement failSink 3 sampleTwo "cpu").calls =
      [("cpu", mergeColumnar (sampleTwo.buffers.get "cpu"))] ∧
    (flushMeasurement failSink 3 sampleTwo "cpu").state.buffers.get "cpu" = [] ∧
    (flushMeasurement okSink 4 (flushMeasurement failSink 3 sampleTwo "cpu").state "cpu").calls = [] := by
  obtain ⟨h1, _, h3, h4⟩ := c7_no_loss_no_double_flush failSink okSink 3 4 sampleTwo "cpu"
    (by decide) (by decide)
  exact ⟨h1, h3, h4⟩

theorem c8_close_failure_not_closed_witness :
    (closeOp failSink 3 sampleTwo).err = some (WError.sinkErr ()) ∧
    (closeOp failSink 3 sampleTwo).state.closed = false :=
  c8_close_failure_not_closed failSink () 3 sampleTwo rfl (fun _ _ => rfl) (by decide)

theorem c9_close_idempotent_witness :
    (closeOp okSink 5 sampleOne).state.closed = true ∧
    closeOp failSink 6 (closeOp okSink 5 sampleOne).state =
      ⟨(closeOp okSink 5 sampleOne).state, [], none⟩ :=
  c9_close_idempotent okSink failSink 5 6 sampleOne (by decide)

theorem c10_writeColumnar_no_validation_witness :
    writeColumnar ⟨10, 100⟩ okSink "cpu" [] 5 sampleOne = ⟨sampleOne, [], none⟩ ∧
    writeColumnar ⟨10, 100⟩ okSink "" [("x", [Value.int 1])] 5 sampleOne =
      ⟨{ sampleOne with buffers := sampleOne.buffers.set "" (sampleOne.buffers.get "" ++ [[("x", [Value.int 1])]]), counts := sampleOne.counts.set "" (sampleOne.counts.get "" + rowCount [("x", [Value.int 1])]) }, [], none⟩ ∧
    (flushMeasurement okSink 6 (writeColumnar ⟨10, 100⟩ okSink "" [("x", [Value.int 1])] 5 sampleOne).state "").calls =
      [("", mergeColumnar (sampleOne.buffers.get "" ++ [[("x", [Value.int 1])]]))] := by
  obtain ⟨h1, h2, h3⟩ := c10_writeColumnar_no_validation ⟨10, 100⟩ okSink okSink 5 6
    sampleOne [("x", [Value.int 1])] "cpu"
  exact ⟨h1, h2 (by decide) (by decide) (by decide), h3 (by decide) (by decide) (by decide)⟩

end ArcSpec
